import Mathlib

/-!
Verification development for the CCDA → OMOP conversion core
(`data_driven_parse.py` and `visit_reconcilliation.py`).

Python values and records are shallowly embedded:
* a Python value (`None | str | float | int | int64 | date | datetime | list`)
  becomes the inductive `PyVal`; dates are days since 1970-01-01, datetimes are
  naive seconds since the epoch together with an optional UTC offset in seconds
  (microsecond resolution is not claim-relevant, so seconds are used);
* a Python `dict` record becomes an insertion-ordered association list `Rec`;
  a missing key (`KeyError`) is distinguishable from a key stored with `None`;
* operations that can raise an uncaught exception (`TypeError` from comparing
  incompatible values, `KeyError` on bracket access) return `Option`/`Except`,
  with `none`/`.error` marking the raise;
* external collaborators (lxml document queries, `dateutil.parser.parse`,
  numeric text parsing) are passed in as function arguments, matching the
  interface boundary of the specification.
-/

namespace CCDA

/-- Embedded Python runtime value, the union
`None | str | float | int/int32/int64 | datetime.date | datetime.datetime | list`
used for every record slot in the source. `rat` is a finite float (float
rounding is not claim-relevant, so rationals stand in for floats), `nan` is the
float NaN (the one self-unequal value), `date` counts days since 1970-01-01 and
`dt` is a datetime with naive seconds since epoch plus optional tz offset. -/
inductive PyVal where
  | pnone : PyVal
  | str : String → PyVal
  | int : Int → PyVal
  | rat : ℚ → PyVal
  | nan : PyVal
  | date : Int → PyVal
  | dt : Int → Option Int → PyVal
  | list : List PyVal → PyVal

/-- Python `==` on embedded values (total, never raises): `None == None` is
true, NaN is unequal to everything including itself, numbers compare across
`int`/`float`, naive and aware datetimes are unequal, `date` and `datetime`
are unequal, lists compare elementwise, and values of different kinds are
unequal. -/
def pyEqB : PyVal → PyVal → Bool
  | .pnone, .pnone => true
  | .str a, .str b => a = b
  | .int a, .int b => a = b
  | .rat a, .rat b => a = b
  | .int a, .rat b => (a : ℚ) = b
  | .rat a, .int b => a = (b : ℚ)
  | .date a, .date b => a = b
  | .dt a ta, .dt b tb =>
    match ta, tb with
    | none, none => a = b
    | some x, some y => a - x = b - y
    | _, _ => false
  | .list a, .list b => pyEqBList a b
  | _, _ => false
where
  /-- elementwise Python `==` on lists -/
  pyEqBList : List PyVal → List PyVal → Bool
  | [], [] => true
  | x :: xs, y :: ys => pyEqB x y && pyEqBList xs ys
  | _, _ => false

/-- Python `<=` on embedded values restricted to the temporal kinds the source
compares; `none` is a `TypeError` (comparison of `date` with `datetime`, of a
naive with an aware `datetime`, or involving `None` or any non-temporal kind
raises in Python). Aware datetimes compare by UTC-adjusted instant. -/
def pyLe : PyVal → PyVal → Option Bool
  | .date a, .date b => some (decide (a ≤ b))
  | .dt a ta, .dt b tb =>
    match ta, tb with
    | none, none => some (decide (a ≤ b))
    | some x, some y => some (decide (a - x ≤ b - y))
    | _, _ => none
  | _, _ => none

/-- Python truthiness of an embedded value. -/
def pyTruthy : PyVal → Bool
  | .pnone => false
  | .str s => s ≠ ""
  | .int n => n ≠ 0
  | .rat q => q ≠ 0
  | .nan => true
  | .date _ => true
  | .dt _ _ => true
  | .list l => !l.isEmpty

/-- Python `x is None`. -/
def isNone : PyVal → Bool
  | .pnone => true
  | _ => false

/-- Python `isinstance(x, datetime.datetime)`. -/
def isDatetime : PyVal → Bool
  | .dt _ _ => true
  | _ => false

/-- Python `isinstance(x, datetime.date)` — in Python `datetime` is a subclass of
`date`, so both embedded temporal kinds qualify. -/
def isDateInst : PyVal → Bool
  | .date _ => true
  | .dt _ _ => true
  | _ => false

/-- The `strip_tz` helper (visit_reconcilliation.py:485-488): drop the tz offset from an
aware datetime, leave every other value unchanged. -/
def strip_tz : PyVal → PyVal
  | .dt n (some _) => .dt n none
  | v => v

/-- An embedded Python `dict` record: insertion-ordered association list from
field names to values. The source only ever builds records with pairwise
distinct keys, which `set` preserves. -/
def Rec : Type := List (String × PyVal)

namespace Rec

/-- Bracket access `r[k]` without the raise: `none` means the key is absent
(where the source would raise `KeyError`). -/
def getK (r : Rec) (k : String) : Option PyVal :=
  (List.find? (fun p => p.1 = k) r).map (·.2)

/-- Python `r.get(k)` — `None` default. -/
def get (r : Rec) (k : String) : PyVal :=
  (r.getK k).getD .pnone

/-- Python `k in r`. -/
def mem (r : Rec) (k : String) : Bool :=
  (r.getK k).isSome

/-- Python `r[k] = v`: replace in place if the key exists, else append (Python dict
insertion-order semantics). -/
def set (r : Rec) (k : String) (v : PyVal) : Rec :=
  match r with
  | [] => [(k, v)]
  | (k', v') :: rest =>
    if k' = k then (k, v) :: rest else (k', v') :: set rest k v

/-- Python `del r[k]` (no raise modeled; the source only deletes keys it just
checked for). -/
def del (r : Rec) (k : String) : Rec :=
  List.filter (fun p => p.1 ≠ k) r

end Rec

/-! ## Deterministic Hasher (data_driven_parse.py:111-122, `create_hash`)

The source computes `hashlib.md5(input_string.encode('utf-8').upper())`, takes
the first 13 characters of the hex digest, parses them base 16 and converts to
a numpy `int64`.  MD5 (RFC 1321) is embedded below over byte lists (bytes are
`Nat`s kept below 256, words are `Nat`s kept below 2^32). -/

/-- Addition modulo 2^32. -/
def add32 (a b : Nat) : Nat := (a + b) % 4294967296

/-- Bitwise complement within 32 bits (valid for inputs below 2^32). -/
def not32 (x : Nat) : Nat := 4294967295 - x

/-- Left rotation within 32 bits (valid for `x < 2^32`, `s ≤ 32`). -/
def rotl32 (x s : Nat) : Nat := (x * 2 ^ s + x / 2 ^ (32 - s)) % 4294967296

/-- MD5 round function F. -/
def md5F (x y z : Nat) : Nat := (x.land y).lor ((not32 x).land z)

/-- MD5 round function G. -/
def md5G (x y z : Nat) : Nat := (x.land z).lor (y.land (not32 z))

/-- MD5 round function H. -/
def md5H (x y z : Nat) : Nat := (x.xor y).xor z

/-- MD5 round function I. -/
def md5I (x y z : Nat) : Nat := y.xor (x.lor (not32 z))

/-- The 64 MD5 sine-derived constants `floor(abs(sin(i+1)) * 2^32)`. -/
def md5K : List Nat :=
  [3614090360, 3905402710, 606105819, 3250441966, 4118548399, 1200080426,
   2821735955, 4249261313, 1770035416, 2336552879, 4294925233, 2304563134,
   1804603682, 4254626195, 2792965006, 1236535329, 4129170786, 3225465664,
   643717713, 3921069994, 3593408605, 38016083, 3634488961, 3889429448,
   568446438, 3275163606, 4107603335, 1163531501, 2850285829, 4243563512,
   1735328473, 2368359562, 4294588738, 2272392833, 1839030562, 4259657740,
   2763975236, 1272893353, 4139469664, 3200236656, 681279174, 3936430074,
   3572445317, 76029189, 3654602809, 3873151461, 530742520, 3299628645,
   4096336452, 1126891415, 2878612391, 4237533241, 1700485571, 2399980690,
   4293915773, 2240044497, 1873313359, 4264355552, 2734768916, 1309151649,
   4149444226, 3174756917, 718787259, 3951481745]

/-- The 64 MD5 per-step rotation amounts. -/
def md5S : List Nat :=
  [7, 12, 17, 22, 7, 12, 17, 22, 7, 12, 17, 22, 7, 12, 17, 22,
   5, 9, 14, 20, 5, 9, 14, 20, 5, 9, 14, 20, 5, 9, 14, 20,
   4, 11, 16, 23, 4, 11, 16, 23, 4, 11, 16, 23, 4, 11, 16, 23,
   6, 10, 15, 21, 6, 10, 15, 21, 6, 10, 15, 21, 6, 10, 15, 21]

/-- The `k` little-endian bytes of `n`. -/
def leBytes : Nat → Nat → List Nat
  | 0, _ => []
  | k + 1, n => n % 256 :: leBytes k (n / 256)

/-- Group a byte list into little-endian 32-bit words. -/
def toWords : List Nat → List Nat
  | b0 :: b1 :: b2 :: b3 :: rest =>
    (b0 + 256 * b1 + 65536 * b2 + 16777216 * b3) :: toWords rest
  | _ => []

/-- One of the 64 MD5 steps on the running state `(a, b, c, d)`. -/
def md5Step (m : List Nat) (st : Nat × Nat × Nat × Nat) (i : Nat) : Nat × Nat × Nat × Nat :=
  let a := st.1
  let b := st.2.1
  let c := st.2.2.1
  let d := st.2.2.2
  let f :=
    if i < 16 then md5F b c d
    else if i < 32 then md5G b c d
    else if i < 48 then md5H b c d
    else md5I b c d
  let g :=
    if i < 16 then i
    else if i < 32 then (5 * i + 1) % 16
    else if i < 48 then (3 * i + 5) % 16
    else (7 * i) % 16
  let tmp := add32 (add32 (add32 a f) (md5K.getD i 0)) (m.getD g 0)
  (d, add32 b (rotl32 tmp (md5S.getD i 0)), b, c)

/-- Process one 64-byte block. -/
def md5Block (st : Nat × Nat × Nat × Nat) (block : List Nat) : Nat × Nat × Nat × Nat :=
  let m := toWords block
  let r := (List.range 64).foldl (md5Step m) st
  (add32 st.1 r.1, add32 st.2.1 r.2.1, add32 st.2.2.1 r.2.2.1, add32 st.2.2.2 r.2.2.2)

/-- Process `n` consecutive 64-byte blocks. -/
def md5Blocks : Nat → Nat × Nat × Nat × Nat → List Nat → Nat × Nat × Nat × Nat
  | 0, st, _ => st
  | n + 1, st, l => md5Blocks n (md5Block st (l.take 64)) (l.drop 64)

/-- MD5 padding: append `0x80`, zero bytes up to 56 mod 64, then the 64-bit
little-endian bit length. -/
def md5Pad (msg : List Nat) : List Nat :=
  msg ++ 128 :: List.replicate ((119 - msg.length % 64) % 64) 0
      ++ leBytes 8 ((msg.length * 8) % 18446744073709551616)

/-- The 16-byte MD5 digest of a byte list. -/
def md5Bytes (msg : List Nat) : List Nat :=
  let p := md5Pad msg
  let r := md5Blocks (p.length / 64) (1732584193, 4023233417, 2562383102, 271733878) p
  leBytes 4 r.1 ++ leBytes 4 r.2.1 ++ leBytes 4 r.2.2.1 ++ leBytes 4 r.2.2.2

/-- Lower-case hex digit for `n < 16`. -/
def hexDigitChar (n : Nat) : Char := if n < 10 then Char.ofNat (48 + n) else Char.ofNat (87 + n)

/-- Python `hashlib.md5(msg).hexdigest()` as a character list (32 lower-case hex digits). -/
def md5HexDigest (msg : List Nat) : List Char :=
  (md5Bytes msg).foldr (fun b acc => hexDigitChar (b / 16) :: hexDigitChar (b % 16) :: acc) []

/-- Numeric value of a lower-case hex digit. -/
def hexVal (c : Char) : Nat := if 97 ≤ c.toNat then c.toNat - 87 else c.toNat - 48

/-- Python `int(cs, 16)` for a hex digit list. -/
def hexToNat (cs : List Char) : Nat := cs.foldl (fun acc c => 16 * acc + hexVal c) 0

/-- UTF-8 encoding of one unicode scalar value. -/
def utf8Char (n : Nat) : List Nat :=
  if n < 128 then [n]
  else if n < 2048 then [192 + n / 64, 128 + n % 64]
  else if n < 65536 then [224 + n / 4096, 128 + n / 64 % 64, 128 + n % 64]
  else [240 + n / 262144, 128 + n / 4096 % 64, 128 + n / 64 % 64, 128 + n % 64]

/-- Python `s.encode('utf-8')` — the UTF-8 byte list of a string. -/
def utf8Encode (s : String) : List Nat :=
  s.data.foldr (fun c acc => utf8Char c.toNat ++ acc) []

/-- Python `bytes.upper`: ASCII-uppercase one byte (Python's `bytes.upper` maps
`a`-`z` to `A`-`Z` and leaves every other byte, including all non-ASCII
bytes, unchanged). -/
def byteUpper (b : Nat) : Nat := if 97 ≤ b ∧ b ≤ 122 then b - 32 else b

/-- Python `str.upper` restricted to its ASCII action, the fragment exercised by the
source (which upper-cases the UTF-8 *bytes*, an ASCII-only transformation):
map `Char.toUpper` over the characters. -/
def pyUpper (s : String) : String := ⟨s.data.map Char.toUpper⟩

/-- numpy `int64` of a nonnegative integer: reduce mod 2^64 into
[-2^63, 2^63). -/
def toInt64 (n : Nat) : Int :=
  let m := n % 18446744073709551616
  if m < 9223372036854775808 then (m : Int) else (m : Int) - 18446744073709551616

/-- The `create_hash` function (data_driven_parse.py:111-122): `None` on empty input, else
the first 13 hex digits of `md5(bytes.upper(utf8(input)))` parsed base 16 as
an `int64`. -/
def create_hash (input_string : String) : Option Int :=
  if input_string = "" then none
  else
    some (toInt64 (hexToNat ((md5HexDigest ((utf8Encode input_string).map byteUpper)).take 13)))

/-! ## Field Resolution Engine (data_driven_parse.py)

The per-field configuration dictionary becomes `FieldSpec`; a table
configuration becomes an ordered association list `Config` (keys are unique in
a Python dict).  The external document query, `dateutil.parser.parse`, and the
numeric text parsers are passed as arguments (spec §6 external interfaces). -/

/-- One field's configuration attributes (the `field_details_dict`).  Only the
attributes the embedded functions read are carried.  `none` in an `Option`
attribute means the key is absent from the dict (for `config_type` it means
the stored value is Python `None`, which every spec carries).  `attr` is the
source's `attribute` key (`attribute` is reserved in Lean).  `default` can
be declared in a configuration dict; no phase embedded here reads it.
`expected_domain_id` is only meaningful on the special `root` entry. -/
structure FieldSpec where
  config_type : Option String := none
  element : Option String := none
  attr : Option String := none
  data_type : Option String := none
  constant_value : PyVal := .pnone
  priority : Option (String × Int) := none
  default : Option PyVal := none
  order : Option Int := none
  fields : List String := []
  expected_domain_id : Option String := none

/-- A table configuration: ordered mapping field name → `FieldSpec`. -/
def Config : Type := List (String × FieldSpec)

/-- Look up a field spec by name. -/
def Config.find (c : Config) (k : String) : Option FieldSpec :=
  (List.find? (fun p => p.1 = k) c).map (·.2)

instance : Membership (String × FieldSpec) Config :=
  inferInstanceAs (Membership _ (List (String × FieldSpec)))

/-- The per-document PK accumulator `pk_dict`, a
`defaultdict(list)`: field name → list of previously produced values.  A key
is only ever materialised by an append, so key presence coincides with a
non-empty list. -/
def PkMap : Type := List (String × List PyVal)

/-- The list stored under `k` (empty when the key is absent). -/
def PkMap.getList (p : PkMap) (k : String) : List PyVal :=
  ((List.find? (fun q => q.1 = k) p).map (·.2)).getD []

/-- Python `pk_dict[k].append(v)` on a `defaultdict(list)`. -/
def PkMap.push (p : PkMap) (k : String) (v : PyVal) : PkMap :=
  match p with
  | [] => [(k, [v])]
  | (k', l) :: rest => if k' = k then (k', l ++ [v]) :: rest else (k', l) :: PkMap.push rest k v

/-- Outcome of the external document query for one field (lxml `xpath` plus
attribute extraction, data_driven_parse.py:176-212): the xpath call raised
`XPathEvalError`, or matched no element, or matched at least one element whose
requested attribute has the given value (`none` when the attribute is absent
from the element). -/
inductive QueryRes where
  | xpathErr : QueryRes
  | noMatch : QueryRes
  | found : Option String → QueryRes

/-- Outcome of Python `float(s)`: a finite value, NaN, or a `ValueError`. -/
inductive FloatRes where
  | val : ℚ → FloatRes
  | fnan : FloatRes
  | err : FloatRes

/-- External permissive date parser (`dateutil.parser.parse`): either a
datetime (naive seconds since epoch, optional tz offset) or a parse failure. -/
def DateParser : Type := String → Option (Int × Option Int)

/-- Python `datetime_val.date()`: the day of the naive part. -/
def dtDateOf (t : Int × Option Int) : Int := Int.fdiv t.1 86400

/-- The `cast_to_date` function (data_driven_parse.py:135-151): on parse
success, the date part of the parsed datetime; on any parse failure the fixed
sentinel `date(1970, 1, 1)` (day 0). -/
def cast_to_date (dparse : DateParser) (s : String) : PyVal :=
  match dparse s with
  | some t => .date (dtDateOf t)
  | none => .date 0

/-- The `cast_to_datetime` function (data_driven_parse.py:153-160): on parse
success the parsed datetime (tz preserved).  On parse failure the handler
itself evaluates `datetime.date.fromisoformat("1970-01-01T00:00:00")`, which
raises `ValueError` in CPython (`date.fromisoformat` rejects a time part), so
the function raises instead of returning — embedded as `.error`. -/
def cast_to_datetime (dparse : DateParser) (s : String) : Except Unit PyVal :=
  match dparse s with
  | some (n, tz) => .ok (.dt n tz)
  | none => .error ()

/-- The `parse_field_from_dict` function (data_driven_parse.py:164-297).
`q` is the outcome of the document query for this field's
`element`/`attribute`, `dparse`/`iparse`/`fparse` the external text parsers
(`dateutil.parser.parse`, numpy `int64`/`int32`, Python `float`).  `.error`
is the uncaught `raise Exception("No NaNs or NaTs allowed...")` fired by the
self-inequality guard (line 271-274), which only a NaN float can reach.  A
failed `LONG`/`INTEGER`/`FLOAT` cast is logged and leaves the raw string in
place (lines 236-247, 260-265); a failed `DATETIME` cast is recovered by the
caller's handler with the epoch datetime (lines 228-235). -/
def parse_field_from_dict (fd : FieldSpec) (q : QueryRes) (dparse : DateParser)
    (iparse : String → Option Int) (fparse : String → FloatRes) : Except Unit PyVal :=
  match fd.element with
  | none => .ok .pnone
  | some _ =>
    match q with
    | .xpathErr => .ok .pnone
    | _ =>
      match fd.attr with
      | none => .ok .pnone
      | some _ =>
        let attribute_value : Option String := match q with | .found v => v | _ => none
        match fd.data_type with
        | none =>
          .ok (match attribute_value with | some s => .str s | none => .pnone)
        | some dtp =>
          match attribute_value with
          | none => .ok .pnone
          | some s =>
            if dtp = "DATE" then .ok (cast_to_date dparse s)
            else if dtp = "DATETIME" then
              match cast_to_datetime dparse s with
              | .ok v => .ok v
              | .error _ => .ok (.dt 0 none)
            else if dtp = "LONG" then
              .ok (match iparse s with | some n => .int n | none => .str s)
            else if dtp = "INTEGER" then
              .ok (match iparse s with | some n => .int n | none => .str s)
            else if dtp = "BIGINTHASH" then
              .ok (match create_hash s with | some n => .int n | none => .pnone)
            else if dtp = "TEXT" then .ok (.str s)
            else if dtp = "FLOAT" then
              match fparse s with
              | .val qv => .ok (.rat qv)
              | .fnan => .error ()
              | .err => .ok (.str s)
            else .ok (.str s)

/-- The `do_basic_fields` phase (data_driven_parse.py:342-372) for `FIELD` and
`PK` fields; `qOf` gives each field's document-query outcome.  The source
catches only `KeyError` (and re-raises it), so an exception from
`parse_field_from_dict` aborts the whole row — embedded as `.error`. -/
def do_basic_fields (config : Config) (qOf : String → QueryRes) (dparse : DateParser)
    (iparse : String → Option Int) (fparse : String → FloatRes)
    (out : Rec) (pk : PkMap) : Except Unit (Rec × PkMap) :=
  match config with
  | [] => .ok (out, pk)
  | (f, fs) :: rest =>
    if fs.config_type = some "FIELD" then
      match parse_field_from_dict fs (qOf f) dparse iparse fparse with
      | .ok v => do_basic_fields rest qOf dparse iparse fparse (out.set f v) pk
      | .error e => .error e
    else if fs.config_type = some "PK" then
      match parse_field_from_dict fs (qOf f) dparse iparse fparse with
      | .ok v => do_basic_fields rest qOf dparse iparse fparse (out.set f v) (pk.push f v)
      | .error e => .error e
    else do_basic_fields rest qOf dparse iparse fparse out pk

/-- The `do_foreign_key_fields` phase (data_driven_parse.py:375-440): for each
`FK` field, exactly one PK value is copied; several values leave the fixed
sentinel `-1` (`'RECONCILE FK'`, line 422); none (absent key or empty list)
sets `None` and records the field in the error set. -/
def do_foreign_key_fields (config : Config) (out : Rec) (err : List String) (pk : PkMap) :
    Rec × List String :=
  match config with
  | [] => (out, err)
  | (f, fs) :: rest =>
    if fs.config_type = some "FK" then
      match PkMap.getList pk f with
      | [] => do_foreign_key_fields rest (out.set f .pnone) (f :: err) pk
      | [v] => do_foreign_key_fields rest (out.set f v) err pk
      | _ :: _ :: _ => do_foreign_key_fields rest (out.set f (.int (-1))) err pk
    else do_foreign_key_fields rest out err pk

/-- Stable insertion of `x` into a list sorted by `key` (strict comparison
keeps `x` before every equal-key element inserted earlier, giving exactly the
stability of Python's `sorted`). -/
def stableInsertBy (key : α → Int) (x : α) : List α → List α
  | [] => [x]
  | y :: ys => if key y < key x then y :: stableInsertBy key x ys else x :: y :: ys

/-- Stable sort by an integer key — the behaviour of Python's `sorted`. -/
def stableSortBy (key : α → Int) : List α → List α
  | [] => []
  | x :: xs => stableInsertBy key x (stableSortBy key xs)

/-- Group the fields carrying a `priority` attribute by target name, keeping
first-seen group order and in-group insertion order
(data_driven_parse.py:566-576). -/
def addPriority (groups : List (String × List (String × Int))) (t : String) (e : String × Int) :
    List (String × List (String × Int)) :=
  match groups with
  | [] => [(t, [e])]
  | (t', l) :: rest =>
    if t' = t then (t', l ++ [e]) :: rest else (t', l) :: addPriority rest t e

/-- Build the `priority_fields` grouping for a configuration. -/
def priorityGroups (config : Config) (acc : List (String × List (String × Int))) :
    List (String × List (String × Int)) :=
  match config with
  | [] => acc
  | (f, fs) :: rest =>
    match fs.priority with
    | some pr => priorityGroups rest (addPriority acc pr.1 (f, pr.2))
    | none => priorityGroups rest acc

/-- Walk the rank-sorted members and return the first whose output value is
present and non-null (data_driven_parse.py:584-590). -/
def chooseFirst (sorted : List (String × Int)) (out : Rec) : Option PyVal :=
  match sorted with
  | [] => none
  | (f, _) :: rest =>
    match out.getK f with
    | some v => if isNone v then chooseFirst rest out else some v
    | none => chooseFirst rest out

/-- Process the priority groups in order, mutating the output record and PK
table (data_driven_parse.py:580-595); a group with no non-null member writes
and appends `None`. -/
def processGroups (groups : List (String × List (String × Int))) (out : Rec) (pk : PkMap) :
    Rec × PkMap :=
  match groups with
  | [] => (out, pk)
  | (t, members) :: rest =>
    match chooseFirst (stableSortBy (fun p => p.2) members) out with
    | some v => processGroups rest (out.set t v) (pk.push t v)
    | none => processGroups rest (out.set t .pnone) (pk.push t .pnone)

/-- The `do_priority_fields` phase (data_driven_parse.py:542-597).  The
source also returns the grouping itself, which no caller consumes; the
embedded version returns the updated record and PK table. -/
def do_priority_fields (config : Config) (out : Rec) (pk : PkMap) : Rec × PkMap :=
  processGroups (priorityGroups config []) out pk

/-- Sort key for output ordering (data_driven_parse.py:601-610): the `order`
attribute, else `sys.maxsize`. -/
def orderKeyOf (config : Config) (k : String) : Int :=
  match Config.find config k with
  | some fs => fs.order.getD 9223372036854775807
  | none => 9223372036854775807

/-- The `sort_output_and_omit_dict` function (data_driven_parse.py:620-639):
keep only fields with a declared `order`, sorted ascending by it (stable),
restricted to keys present in the output record. -/
def sort_output_and_omit_dict (out : Rec) (config : Config) : Rec :=
  let ordered_keys := stableSortBy (orderKeyOf config) (config.map Prod.fst)
  let filtered := ordered_keys.filter (fun k => ((Config.find config k).bind (·.order)).isSome)
  filtered.foldr (fun k acc =>
    match out.getK k with
    | some v => (k, v) :: acc
    | none => acc) []

/-- Python `expected_domain_id == domain_id` where the left side is the
config's expected id (a string or `None`) and the right the computed value. -/
def eqExpected (e : Option String) (d : PyVal) : Bool :=
  match e with
  | none => isNone d
  | some s => pyEqB (.str s) d

/-- The header tables that never carry a computed `domain_id`
(data_driven_parse.py:688). -/
def headerTables : List String := ["Person", "Location", "Care_Site", "Provider", "Visit"]

/-- Check a key the accept/reject logging interpolates
(`output_dict['observation_id']` etc. inside the f-string raises `KeyError`
when the pruned record lacks it). -/
def needK (r : Rec) (k : String) : Except Unit Unit :=
  if (r.getK k).isSome then .ok () else .error ()

/-- Keys interpolated by the ACCEPT log lines
(data_driven_parse.py:690-705). -/
def acceptLogKeys (e : Option String) : List String :=
  match e with
  | some "Observation" => ["observation_id", "observation_concept_id"]
  | some "Measurement" => ["measurement_id", "measurement_concept_id"]
  | some "Procedure" => ["procedure_occurrence_id", "procedure_concept_id"]
  | some "Device" => ["device_exposure_id", "device_concept_id"]
  | _ => []

/-- Keys interpolated by the DENY/REJECT log lines
(data_driven_parse.py:708-733). -/
def rejectLogKeys (e : Option String) : List String :=
  match e with
  | some "Observation" => ["observation_id", "observation_concept_id"]
  | some "Measurement" => ["measurement_id", "measurement_concept_id"]
  | some "Procedure" => ["procedure_occurrence_id", "procedure_concept_id"]
  | some "Drug" => ["drug_exposure_id", "drug_concept_id"]
  | some "Device" => ["device_exposure_id", "device_concept_id"]
  | some "Condition" => ["condition_occurrence_id", "condition_concept_id"]
  | _ => []

/-- Check that every listed key is present in the pruned record. -/
def needAll (r : Rec) : List String → Except Unit Unit
  | [] => .ok ()
  | k :: ks => match needK r k with
    | .ok _ => needAll r ks
    | .error e => .error e

/-- The tail of `parse_config_for_single_root` (data_driven_parse.py:682-734):
read `domain_id` before pruning, prune/order the record, and accept it when
the computed domain equals the root spec's `expected_domain_id` or the latter
is a non-domain-routed header table; otherwise drop the row (`None`).
`.error` marks a `KeyError` raised while interpolating the log lines, or a
missing `root` entry. -/
def domain_routing (out : Rec) (config : Config) : Except Unit (Option Rec) :=
  let domain_id := out.get "domain_id"
  let pruned := sort_output_and_omit_dict out config
  match Config.find config "root" with
  | none => .error ()
  | some rootFs =>
    let expected := rootFs.expected_domain_id
    if eqExpected expected domain_id ||
        (match expected with | some s => decide (s ∈ headerTables) | none => false) then
      match needAll pruned (acceptLogKeys expected) with
      | .ok _ => .ok (some pruned)
      | .error e => .error e
    else
      match needAll pruned (rejectLogKeys expected) with
      | .ok _ => .ok none
      | .error e => .error e

/-! ## Visit Hierarchy Classifier (visit_reconcilliation.py) -/

/-- Python chained comparison `a <= b <= c` with short-circuit evaluation;
`none` is a `TypeError` raised by one of the executed comparisons. -/
def pyChain3 (a b c : PyVal) : Option Bool :=
  match pyLe a b with
  | none => none
  | some false => some false
  | some true => pyLe b c

/-- Python short-circuit `and` over possibly-raising boolean computations:
when the left operand is `False` the right one is never evaluated, so its
potential raise is discarded. -/
def andSC (x y : Option Bool) : Option Bool :=
  match x with
  | none => none
  | some false => some false
  | some true => y

/-- The `get_visit_duration_days` function
(visit_reconcilliation.py:47-82): duration in days, `some none` when a date
is missing or the (post-`strip_tz`) values are not both dates or both
datetimes of the kind each branch subtracts; outer `none` is the `TypeError`
of subtracting a `date` from a `datetime` (one side passes
`isinstance(_, datetime.date)` as a datetime in the second branch). -/
def get_visit_duration_days (visit : Rec) : Option (Option ℚ) :=
  let useDT := visit.mem "visit_start_datetime" && visit.mem "visit_end_datetime"
  let sk := if useDT then "visit_start_datetime" else "visit_start_date"
  let ek := if useDT then "visit_end_datetime" else "visit_end_date"
  let s0 := visit.get sk
  let e0 := visit.get ek
  if isNone s0 || isNone e0 then some none
  else
    match strip_tz s0, strip_tz e0 with
    | .dt a _, .dt b _ => some (some (((b - a : Int) : ℚ) / 86400))
    | .date a, .date b => some (some ((b - a : Int) : ℚ))
    | .dt _ _, .date _ => none
    | .date _, .dt _ _ => none
    | _, _ => some none

/-- The `identify_inpatient_parents` function
(visit_reconcilliation.py:85-120): visits whose `visit_concept_id` is the
inpatient concept 9201 and whose duration is defined and strictly below
`MAX_PARENT_DURATION_DAYS = 367`. -/
def identify_inpatient_parents : List Rec → Option (List Rec)
  | [] => some []
  | v :: rest =>
    if pyEqB (v.get "visit_concept_id") (.int 9201) then
      match get_visit_duration_days v with
      | none => none
      | some none => identify_inpatient_parents rest
      | some (some d) =>
        if d < 367 then (identify_inpatient_parents rest).map (v :: ·)
        else identify_inpatient_parents rest
    else identify_inpatient_parents rest

/-- The `is_temporally_contained` function (visit_reconcilliation.py:124-158):
inclusive interval containment of `child` in `parent` after `strip_tz`, over
the datetime columns when the child record carries both datetime keys, else
over the date columns; `False` when any of the four values is `None`.
`none` is an uncaught `TypeError` from comparing incompatible kinds. -/
def is_temporally_contained (child_dict parent_dict : Rec) : Option Bool :=
  let useDT := child_dict.mem "visit_start_datetime" && child_dict.mem "visit_end_datetime"
  let sk := if useDT then "visit_start_datetime" else "visit_start_date"
  let ek := if useDT then "visit_end_datetime" else "visit_end_date"
  let cs := child_dict.get sk
  let ce := child_dict.get ek
  let ps := parent_dict.get sk
  let pe := parent_dict.get ek
  if isNone cs || isNone ce || isNone ps || isNone pe then some false
  else
    andSC (pyLe (strip_tz ps) (strip_tz cs)) (pyLe (strip_tz ce) (strip_tz pe))

/-- Filter the potential parents to those with the child's `person_id`, a
different `visit_occurrence_id`, and containing the child
(visit_reconcilliation.py:189-198). -/
def containingParents (child : Rec) (cperson cvid : PyVal) : List Rec → Option (List Rec)
  | [] => some []
  | p :: rest =>
    if pyEqB (p.get "person_id") cperson && !pyEqB (p.get "visit_occurrence_id") cvid then
      match is_temporally_contained child p with
      | none => none
      | some true => (containingParents child cperson cvid rest).map (p :: ·)
      | some false => containingParents child cperson cvid rest
    else containingParents child cperson cvid rest

/-- Check one parent against all later ones for mutual non-containment
(inner loop of visit_reconcilliation.py:206-226). -/
def siblingScanOne (p : Rec) : List Rec → Option Bool
  | [] => some false
  | q :: rest =>
    match is_temporally_contained q p with
    | none => none
    | some icj =>
      match is_temporally_contained p q with
      | none => none
      | some jci =>
        if !icj && !jci then some true else siblingScanOne p rest

/-- Scan all ordered pairs for a sibling pair, with the source's early
return on the first one found (visit_reconcilliation.py:205-226). -/
def siblingScan : List Rec → Option Bool
  | [] => some false
  | p :: rest =>
    match siblingScanOne p rest with
    | none => none
    | some true => some true
    | some false => siblingScan rest

/-- The shortest-duration fold of visit_reconcilliation.py:229-237, tracking
the running minimum and its record; parents without a defined duration are
skipped, strict `<` keeps the first minimum. -/
def minDurLoop : List Rec → Option ℚ → Option Rec → Option (Option Rec)
  | [], _, best => some best
  | p :: rest, mind, best =>
    match get_visit_duration_days p with
    | none => none
    | some none => minDurLoop rest mind best
    | some (some d) =>
      match mind with
      | none => minDurLoop rest (some d) (some p)
      | some m =>
        if d < m then minDurLoop rest (some d) (some p) else minDurLoop rest mind best

/-- The `find_most_specific_parent` function
(visit_reconcilliation.py:162-243).  The inner value is the chosen parent's
`visit_occurrence_id` value or `None` (no parent, or an ambiguous sibling
pair); the outer `none` is an uncaught `TypeError` from a containment or
duration computation. -/
def find_most_specific_parent (child_dict : Rec) (potential_parents : List Rec) :
    Option PyVal :=
  if potential_parents.isEmpty then some .pnone
  else
    let cperson := child_dict.get "person_id"
    let cvid := child_dict.get "visit_occurrence_id"
    match containingParents child_dict cperson cvid potential_parents with
    | none => none
    | some containing =>
      if containing.isEmpty then some .pnone
      else
        match (if containing.length > 1 then siblingScan containing else some false) with
        | none => none
        | some true => some .pnone
        | some false =>
          match minDurLoop containing none none with
          | none => none
          | some best =>
            match best with
            | some p => if !(List.isEmpty p) then some (p.get "visit_occurrence_id") else some .pnone
            | none => some .pnone

/-- The fixed visit→visit-detail field-rename map
(visit_reconcilliation.py:264-283), in source order. -/
def visitDetailFieldMap : List (String × String) :=
  [("visit_occurrence_id", "visit_detail_id"),
   ("person_id", "person_id"),
   ("visit_concept_id", "visit_detail_concept_id"),
   ("visit_start_date", "visit_detail_start_date"),
   ("visit_start_datetime", "visit_detail_start_datetime"),
   ("visit_end_date", "visit_detail_end_date"),
   ("visit_end_datetime", "visit_detail_end_datetime"),
   ("visit_type_concept_id", "visit_detail_type_concept_id"),
   ("provider_id", "provider_id"),
   ("care_site_id", "care_site_id"),
   ("visit_source_value", "visit_detail_source_value"),
   ("visit_source_concept_id", "visit_detail_source_concept_id"),
   ("admitting_source_value", "admitting_source_value"),
   ("admitting_source_concept_id", "admitting_source_concept_id"),
   ("discharge_to_source_value", "discharge_to_source_value"),
   ("discharge_to_concept_id", "discharge_to_concept_id"),
   ("filename", "filename"),
   ("cfg_name", "cfg_name")]

/-- The `create_visit_detail_record` function
(visit_reconcilliation.py:247-295): copy the mapped fields that exist, then
set the parent references. -/
def create_visit_detail_record (visit_dict : Rec) (top_level_parent_id : PyVal)
    (immediate_parent_id : PyVal) : Rec :=
  let base : Rec := visitDetailFieldMap.foldl (fun acc sd =>
      match visit_dict.getK sd.1 with
      | some v => Rec.set acc sd.2 v
      | none => acc) ([] : Rec)
  Rec.set (Rec.set (Rec.set base "visit_occurrence_id" top_level_parent_id)
    "visit_detail_parent_id" immediate_parent_id) "preceding_visit_detail_id" PyVal.pnone

/-- Membership of a value in a list of values under Python `==`. -/
def pyMemList (x : PyVal) (l : List PyVal) : Bool := l.any (pyEqB x)

/-- Replace the value stored under an existing key of a value-keyed
association map, preserving order. -/
def replaceKey : List (PyVal × Rec) → PyVal → Rec → List (PyVal × Rec)
  | [], _, _ => []
  | e :: rest, k, v => if pyEqB e.1 k then (k, v) :: rest else e :: replaceKey rest k v

/-- The deduplication loop of visit_reconcilliation.py:345-358 over a
`visit_occurrence_id`-keyed dict: first occurrence wins unless the stored
record came from `Visit_encompassingEncounter` and the new one from `Visit`. -/
def dedupGo : List Rec → List (PyVal × Rec) → List (PyVal × Rec)
  | [], m => m
  | v :: rest, m =>
    let vid := v.get "visit_occurrence_id"
    match List.find? (fun e => pyEqB e.1 vid) m with
    | some e =>
      if pyEqB (e.2.get "cfg_name") (.str "Visit_encompassingEncounter") &&
          pyEqB (v.get "cfg_name") (.str "Visit") then
        dedupGo rest (replaceKey m vid v)
      else dedupGo rest m
    | none => dedupGo rest (m ++ [(vid, v)])

/-- Deduplicate merged visit rows by `visit_occurrence_id`
(visit_reconcilliation.py:343-358). -/
def dedupVisits (all_visits : List Rec) : List Rec :=
  (dedupGo all_visits []).map Prod.snd

/-- The `omop_dict`: config name → list of records or `None`. -/
abbrev OmopMap := List (String × Option (List Rec))

/-- Bracket access on the omop dict (`none` = `KeyError`). -/
def OmopMap.getO (m : OmopMap) (k : String) : Option (Option (List Rec)) :=
  (List.find? (fun p => p.1 = k) m).map (·.2)

/-- Python `m[k] = v` on the omop dict. -/
def OmopMap.setO (m : OmopMap) (k : String) (v : Option (List Rec)) : OmopMap :=
  match m with
  | [] => [(k, v)]
  | (k', v') :: rest =>
    if k' = k then (k, v) :: rest else (k', v') :: OmopMap.setO rest k v

/-- Python `del m[k]` on the omop dict. -/
def OmopMap.delO (m : OmopMap) (k : String) : OmopMap :=
  List.filter (fun p => p.1 ≠ k) m

/-- Truthiness of `m[k]` guarded by `k in m` — the pervasive
`if k in omop_dict and omop_dict[k]:` pattern. -/
def OmopMap.truthy (m : OmopMap) (k : String) : Bool :=
  match OmopMap.getO m k with
  | some (some l) => !l.isEmpty
  | _ => false

/-- Upward walk through the parent map to the top-level ancestor
(visit_reconcilliation.py:405-407).  The source's `while` loop never
terminates on a cyclic map; the fuel (strictly more than the map size)
makes that case `none`. -/
def walkTop (pm : List (PyVal × PyVal)) : PyVal → Nat → Option PyVal
  | _, 0 => none
  | cur, fuel + 1 =>
    match List.find? (fun e => pyEqB e.1 cur) pm with
    | some e => walkTop pm e.2 fuel
    | none => some cur

/-- Build `visit_to_parent_map` in visit order
(visit_reconcilliation.py:378-387): one entry per visit with a
non-`None` most specific parent, keyed by the visit's id. -/
def buildParentMap (parents : List Rec) : List Rec → Option (List (PyVal × PyVal))
  | [] => some []
  | v :: rest =>
    match find_most_specific_parent v parents with
    | none => none
    | some pid =>
      match buildParentMap parents rest with
      | none => none
      | some pm =>
        if isNone pid then some pm
        else some ((v.get "visit_occurrence_id", pid) :: pm)

/-- Build the visit-detail records for the nested visits
(visit_reconcilliation.py:397-419), iterating the nested ids in parent-map
order (the source iterates a Python set, whose order is unspecified; no claim
depends on the order of this list). -/
def buildDetails (pm : List (PyVal × PyVal)) (nested_parent_ids : List PyVal)
    (lookupIn : List Rec) : List (PyVal × PyVal) → Option (List Rec)
  | [] => some []
  | (vid, immediate) :: rest =>
    match List.find? (fun v => pyEqB (v.get "visit_occurrence_id") vid) lookupIn with
    | some visit =>
      if !(List.isEmpty visit) then
        match walkTop pm immediate (pm.length + 1) with
        | none => none
        | some top =>
          let vdpid := if pyMemList immediate nested_parent_ids then immediate else .pnone
          (buildDetails pm nested_parent_ids lookupIn rest).map
            (create_visit_detail_record visit top vdpid :: ·)
      else buildDetails pm nested_parent_ids lookupIn rest
    | none => buildDetails pm nested_parent_ids lookupIn rest

/-- The `reclassify_nested_visit_occurrences_as_detail` entry point
(visit_reconcilliation.py:299-440): merge the `Visit` and
`Visit_encompassingEncounter` lists, return early when the merged list is
empty or a singleton, else deduplicate, classify the hierarchy, emit
`VISITDETAIL_visit_occurrence` and prune nested visits from `Visit`.
`none` is an uncaught `TypeError` (or the source's non-termination on a
cyclic parent map). -/
def reclassify_nested_visit_occurrences_as_detail (omop_dict : OmopMap) :
    Option OmopMap :=
  let av1 := if OmopMap.truthy omop_dict "Visit" then
      ((OmopMap.getO omop_dict "Visit").getD none).getD [] else []
  let av2 := if OmopMap.truthy omop_dict "Visit_encompassingEncounter" then
      ((OmopMap.getO omop_dict "Visit_encompassingEncounter").getD none).getD [] else []
  let all_visits := av1 ++ av2
  if all_visits.isEmpty then some omop_dict
  else if all_visits.length = 1 then
    some (OmopMap.setO omop_dict "Visit" (some all_visits))
  else
    let dedup := dedupVisits all_visits
    match identify_inpatient_parents dedup with
    | none => none
    | some parent_visits =>
      if parent_visits.isEmpty then
        some (OmopMap.delO (OmopMap.setO omop_dict "Visit" (some dedup))
          "Visit_encompassingEncounter")
      else
        match buildParentMap parent_visits dedup with
        | none => none
        | some pm =>
          let nested_ids := pm.map Prod.fst
          let parent_ids := parent_visits.map (fun p => p.get "visit_occurrence_id")
          let nested_parent_ids := parent_ids.filter (fun i => pyMemList i nested_ids)
          match buildDetails pm nested_parent_ids dedup pm with
          | none => none
          | some details =>
            let final_vo := dedup.filter
              (fun v => !pyMemList (v.get "visit_occurrence_id") nested_ids)
            let m1 := OmopMap.delO (OmopMap.setO omop_dict "Visit" (some final_vo))
              "Visit_encompassingEncounter"
            some (if details.isEmpty then m1
              else OmopMap.setO m1 "VISITDETAIL_visit_occurrence" (some details))

/-! ## Clinical-Event Linker (visit_reconcilliation.py:443-910) -/

/-- The per-domain date-field metadata `domain_dates`
(visit_reconcilliation.py:465-481): either one effective date (date field,
datetime field, id field) or a start/end pair. -/
inductive DateCfg where
  | single : String → String → String → DateCfg
  | interval : String → String → String → String → String → DateCfg

/-- The `domain_dates` table. -/
def domain_dates : List (String × DateCfg) :=
  [("Measurement", .single "measurement_date" "measurement_datetime" "measurement_id"),
   ("Observation", .single "observation_date" "observation_datetime" "observation_id"),
   ("Condition", .interval "condition_start_date" "condition_start_datetime"
      "condition_end_date" "condition_end_datetime" "condition_id"),
   ("Procedure", .single "procedure_date" "procedure_datetime" "procedure_occurrence_id"),
   ("Drug", .interval "drug_exposure_start_date" "drug_exposure_start_datetime"
      "drug_exposure_end_date" "drug_exposure_end_datetime" "drug_exposure_id"),
   ("Device", .interval "device_exposure_start_date" "device_exposure_start_datetime"
      "device_exposure_end_date" "device_exposure_end_datetime" "device_exposure_id")]

/-- Python `datetime.datetime.combine(x, time(23, 59, 59))`
(visit_reconcilliation.py:536-537): end-of-day datetime of the date part of
`x` (naive — the tzinfo comes from the `time` argument); `none` is the
`TypeError` on a non-date argument. -/
def combineEOD : PyVal → Option PyVal
  | .date d => some (.dt (d * 86400 + 86399) none)
  | .dt n _ => some (.dt (Int.fdiv n 86400 * 86400 + 86399) none)
  | _ => none

/-- Effective date of a single-date event (visit_reconcilliation.py:512-518):
start from the plain date field, prefer the datetime field (timezone
stripped) when it holds a datetime.  Both keys are bracket-accessed
unconditionally; `none` is the uncaught `KeyError`. -/
def effDateSingle (thing : Rec) (dateF dtF : String) : Option PyVal :=
  match thing.getK dateF, thing.getK dtF with
  | some dv, some dtv =>
    some (if !isNone dtv && isDatetime dtv then strip_tz dtv else dv)
  | _, _ => none

/-- Effective start of an interval event (visit_reconcilliation.py:580-584
and 824-827): the stripped datetime field when it holds a datetime, else the
date field (bracket-accessed only in that branch); `none` = `KeyError`. -/
def effStartLazy (thing : Rec) (sdtF sdF : String) : Option PyVal :=
  match thing.getK sdtF with
  | none => none
  | some v => if !isNone v && isDatetime v then some (strip_tz v) else thing.getK sdF

/-- Effective end of an interval event (visit_reconcilliation.py:586-593 and
829-834): the stripped datetime field when it holds a datetime, else the end
date field when that is not `None`, else the effective start; `none` =
`KeyError`. -/
def effEndLazy (thing : Rec) (edtF edF : String) (s : PyVal) : Option PyVal :=
  match thing.getK edtF with
  | none => none
  | some v =>
    if !isNone v && isDatetime v then some (strip_tz v)
    else
      match thing.getK edF with
      | none => none
      | some ev => if !isNone ev then some ev else some s

/-- Pass A window test for a single-date event against one visit row
(the `try` body of visit_reconcilliation.py:524-546): every raise inside the
loop body (`KeyError` on a missing visit field, `TypeError` on an
incompatible comparison or a failed `combine`) is caught and skips the
visit, so a raise simply yields `false` here. -/
def visitWindowTestSingle (d : PyVal) (visit : Rec) : Bool :=
  match visit.getK "visit_start_date", visit.getK "visit_start_datetime",
      visit.getK "visit_end_date", visit.getK "visit_end_datetime" with
  | some svd, some svdt0, some evd, some evdt0 =>
    let svdt := strip_tz svdt0
    let evdt := strip_tz evdt0
    (match d with
     | .dt _ _ =>
       if !pyEqB svdt evdt then pyChain3 svdt d evdt
       else
         match combineEOD evd with
         | some adj => pyChain3 svdt d adj
         | none => none
     | .date _ => pyChain3 svd d evd
     | _ => some false).getD false
  | _, _, _, _ => false

/-- Pass A window test for an interval event against one visit row
(the `try` body of visit_reconcilliation.py:599-629); both the start and
the end value must fall in the same visit window, and as in the single-date
case a raise skips the visit. -/
def visitWindowTestInterval (s e : PyVal) (visit : Rec) : Bool :=
  match visit.getK "visit_start_date", visit.getK "visit_start_datetime",
      visit.getK "visit_end_date", visit.getK "visit_end_datetime" with
  | some svd, some svdt0, some evd, some evdt0 =>
    let svdt := strip_tz svdt0
    let evdt := strip_tz evdt0
    (if isDatetime s && isDatetime e then
       if !pyEqB svdt evdt then andSC (pyChain3 svdt s evdt) (pyChain3 svdt e evdt)
       else
         match combineEOD evd with
         | some adj => andSC (pyChain3 svdt s adj) (pyChain3 svdt e adj)
         | none => none
     else if isDateInst s && isDateInst e then
       andSC (pyChain3 svd s evd) (pyChain3 svd e evd)
     else some false).getD false
  | _, _, _, _ => false

/-- The matched visit ids for a given window test: visits passing the test
whose `visit_occurrence_id` bracket access succeeds (a `KeyError` there is
also caught and skips the visit, after the window test). -/
def visitMatches (test : Rec → Bool) (visits : List Rec) : List PyVal :=
  (visits.filter (fun v => test v && (v.getK "visit_occurrence_id").isSome)).map
    (fun v => v.get "visit_occurrence_id")

/-- Outcome application shared by both pass A branches
(visit_reconcilliation.py:553-562 and 636-645): one match assigns
`visit_occurrence_id`, none leaves the record unchanged (logged), several
leave it unchanged but store the candidate list under the transient
`__visit_candidates` key. -/
def applyMatchesA (thing : Rec) (mlist : List PyVal) : Rec :=
  match mlist with
  | [m] => thing.set "visit_occurrence_id" m
  | [] => thing
  | ms => thing.set "__visit_candidates" (.list ms)

/-- Pass A step for one single-date event (visit_reconcilliation.py:510-566);
`none` is the uncaught `KeyError` on the event's own date fields. -/
def stepSingleA (dateF dtF : String) (visits : List Rec) (thing : Rec) : Option Rec :=
  match effDateSingle thing dateF dtF with
  | none => none
  | some d =>
    if isNone d then some thing
    else some (applyMatchesA thing (visitMatches (visitWindowTestSingle d) visits))

/-- Pass A step for one interval event (visit_reconcilliation.py:570-650). -/
def stepIntervalA (sdF sdtF edF edtF : String) (visits : List Rec) (thing : Rec) :
    Option Rec :=
  match effStartLazy thing sdtF sdF with
  | none => none
  | some s =>
    match effEndLazy thing edtF edF s with
    | none => none
    | some e =>
      if isNone s || isNone e then some thing
      else some (applyMatchesA thing (visitMatches (visitWindowTestInterval s e) visits))

/-- One pass A reconciliation over a domain's record list. -/
def reconcileA (cfg : DateCfg) (visits : List Rec) (things : List Rec) :
    Option (List Rec) :=
  match cfg with
  | .single dateF dtF _ => things.mapM (stepSingleA dateF dtF visits)
  | .interval sdF sdtF edF edtF _ => things.mapM (stepIntervalA sdF sdtF edF edtF visits)

/-- The `reconcile_visit_FK_with_specific_domain` function
(visit_reconcilliation.py:492-653): early return (list unchanged) when the
visit list or the domain list is `None` or the domain has no `domain_dates`
entry; otherwise every event record is processed in place.  The outer `none`
is an uncaught raise, the inner value the updated domain list. -/
def reconcile_visit_FK_with_specific_domain (domain : String)
    (domain_dict : Option (List Rec)) (visit_dict : Option (List Rec)) :
    Option (Option (List Rec)) :=
  match visit_dict with
  | none => some domain_dict
  | some visits =>
    match domain_dict with
    | none => some none
    | some things =>
      match List.find? (fun e => e.1 = domain) domain_dates with
      | none => some (some things)
      | some (_, cfg) => (reconcileA cfg visits things).map some

/-- The clinical domains taking part in visit FK reconciliation
(visit_reconcilliation.py:671). -/
def sixDomains : List String :=
  ["Measurement", "Observation", "Condition", "Procedure", "Drug", "Device"]

/-- First loop of `assign_visit_occurrence_ids_to_events`
(visit_reconcilliation.py:669-672): run pass A for every configured clinical
table present and non-empty, against `data_dict['Visit']` (whose absence is
an uncaught `KeyError`). -/
def passAloop1 (cfgToDomain : List (String × String)) (data : OmopMap) : Option OmopMap :=
  match cfgToDomain with
  | [] => some data
  | (cfg, dom) :: rest =>
    match OmopMap.getO data cfg with
    | some (some l) =>
      if !l.isEmpty && decide (dom ∈ sixDomains) then
        match OmopMap.getO data "Visit" with
        | none => none
        | some vopt =>
          match reconcile_visit_FK_with_specific_domain dom (some l) vopt with
          | none => none
          | some newOpt => passAloop1 rest (OmopMap.setO data cfg newOpt)
      else passAloop1 rest data
    | _ => passAloop1 rest data

/-- Second loop of `assign_visit_occurrence_ids_to_events`
(visit_reconcilliation.py:674-679): delete the transient
`__visit_candidates` key from every record of the processed tables. -/
def passAloop2 (cfgToDomain : List (String × String)) (data : OmopMap) : OmopMap :=
  match cfgToDomain with
  | [] => data
  | (cfg, dom) :: rest =>
    match OmopMap.getO data cfg with
    | some (some l) =>
      if !l.isEmpty && decide (dom ∈ sixDomains) then
        passAloop2 rest
          (OmopMap.setO data cfg (some (l.map (fun r => Rec.del r "__visit_candidates"))))
      else passAloop2 rest data
    | _ => passAloop2 rest data

/-- The `assign_visit_occurrence_ids_to_events` entry point
(visit_reconcilliation.py:657-679).  `cfgToDomain` is the
`DDL.config_to_domain_name_dict` mapping scanned from the metadata directory
(external configuration). -/
def assign_visit_occurrence_ids_to_events (cfgToDomain : List (String × String))
    (data : OmopMap) : Option OmopMap :=
  (passAloop1 cfgToDomain data).map (passAloop2 cfgToDomain)

/-! ### Pass B — visit_detail linkage -/

/-- The `get_visit_detail_duration` function
(visit_reconcilliation.py:884-910): duration in days preferring the datetime
pair (truthiness-tested, timezone-stripped, `total_seconds()/86400`), else
the date pair (`.days`, which floors), else `0.0`; `none` is the uncaught
`TypeError` of subtracting incompatible values. -/
def get_visit_detail_duration (vd : Rec) : Option ℚ :=
  let sdt := vd.get "visit_detail_start_datetime"
  let edt := vd.get "visit_detail_end_datetime"
  let sd := vd.get "visit_detail_start_date"
  let ed := vd.get "visit_detail_end_date"
  if pyTruthy sdt && pyTruthy edt then
    match strip_tz edt, strip_tz sdt with
    | .dt b _, .dt a _ => some (((b - a : Int) : ℚ) / 86400)
    | .date b, .date a => some ((((b - a) * 86400 : Int) : ℚ) / 86400)
    | _, _ => none
  else if pyTruthy sd && pyTruthy ed then
    match ed, sd with
    | .date b, .date a => some ((b - a : Int) : ℚ)
    | .dt b tb, .dt a ta =>
      (match tb, ta with
       | none, none => some ((Int.fdiv (b - a) 86400 : Int) : ℚ)
       | some x, some y => some ((Int.fdiv ((b - x) - (a - y)) 86400 : Int) : ℚ)
       | _, _ => none)
    | _, _ => none
  else some 0

/-- The running-minimum tail of Python `min(matches, key=...)`: strict `<`
keeps the first minimum; any key evaluation may raise. -/
def minDurGo : List Rec → Rec → ℚ → Option Rec
  | [], best, _ => some best
  | w :: ws, best, bd =>
    match get_visit_detail_duration w with
    | none => none
    | some dw => if dw < bd then minDurGo ws w dw else minDurGo ws best bd

/-- Python `min(matches, key=get_visit_detail_duration)`
(visit_reconcilliation.py:800, 872): first record of minimal duration. -/
def minByDuration : List Rec → Option Rec
  | [] => none
  | v :: rest =>
    match get_visit_detail_duration v with
    | none => none
    | some d0 => minDurGo rest v d0

/-- Pass B containment test of a single-date event against one visit-detail
row (visit_reconcilliation.py:776-789); no `try` protects this loop, so a
`TypeError` (`none`) propagates. -/
def vdWindowTestSingle (e : PyVal) (vd : Rec) : Option Bool :=
  let vsdt := strip_tz (vd.get "visit_detail_start_datetime")
  let vsd := vd.get "visit_detail_start_date"
  let vedt := strip_tz (vd.get "visit_detail_end_datetime")
  let ved := vd.get "visit_detail_end_date"
  match e with
  | .dt _ _ => if pyTruthy vsdt && pyTruthy vedt then pyChain3 vsdt e vedt else some false
  | .date _ => if pyTruthy vsd && pyTruthy ved then pyChain3 vsd e ved else some false
  | _ => some false

/-- Pass B containment test of an interval event against one visit-detail row
(visit_reconcilliation.py:846-861): both ends must lie in the same window. -/
def vdWindowTestInterval (s e : PyVal) (vd : Rec) : Option Bool :=
  let vsdt := strip_tz (vd.get "visit_detail_start_datetime")
  let vsd := vd.get "visit_detail_start_date"
  let vedt := strip_tz (vd.get "visit_detail_end_datetime")
  let ved := vd.get "visit_detail_end_date"
  if isDatetime s && isDatetime e then
    if pyTruthy vsdt && pyTruthy vedt then
      andSC (pyChain3 vsdt s vedt) (pyChain3 vsdt e vedt)
    else some false
  else if isDateInst s && isDateInst e then
    if pyTruthy vsd && pyTruthy ved then
      andSC (pyChain3 vsd s ved) (pyChain3 vsd e ved)
    else some false
  else some false

/-- Collect the matching visit-detail rows: those sharing the event's
`visit_occurrence_id` (via `.get`) and passing the window test. -/
def vdMatches (test : Rec → Option Bool) (tvoid : PyVal) : List Rec → Option (List Rec)
  | [] => some []
  | vd :: rest =>
    if !pyEqB (vd.get "visit_occurrence_id") tvoid then vdMatches test tvoid rest
    else
      match test vd with
      | none => none
      | some true => (vdMatches test tvoid rest).map (vd :: ·)
      | some false => vdMatches test tvoid rest

/-- Outcome application shared by both pass B branches
(visit_reconcilliation.py:794-806 and 866-878): one match assigns its
`visit_detail_id` (bracket access — `none` on a missing key), several assign
the smallest-duration match's id, none leaves the record unchanged. -/
def applyMatchesB (thing : Rec) (mlist : List Rec) : Option Rec :=
  match mlist with
  | [m] =>
    match m.getK "visit_detail_id" with
    | some vid => some (thing.set "visit_detail_id" vid)
    | none => none
  | [] => some thing
  | ms =>
    match minByDuration ms with
    | none => none
    | some m =>
      match m.getK "visit_detail_id" with
      | some vid => some (thing.set "visit_detail_id" vid)
      | none => none

/-- Pass B step for one single-date event (visit_reconcilliation.py:751-806):
events without a (non-`None`) `visit_occurrence_id` are skipped; the event
date prefers the stripped datetime field (bracket-accessed — `KeyError`
propagates) over the date field. -/
def stepSingleB (dateF dtF : String) (vds : List Rec) (thing : Rec) : Option Rec :=
  if !(thing.mem "visit_occurrence_id") || isNone (thing.get "visit_occurrence_id") then
    some thing
  else
    match thing.getK dtF with
    | none => none
    | some dtv =>
      match (if !isNone dtv && isDatetime dtv then some (strip_tz dtv) else thing.getK dateF) with
      | none => none
      | some e =>
        if isNone e then some thing
        else
          match vdMatches (vdWindowTestSingle e) (thing.get "visit_occurrence_id") vds with
          | none => none
          | some ms => applyMatchesB thing ms

/-- Pass B step for one interval event (visit_reconcilliation.py:810-878). -/
def stepIntervalB (sdF sdtF edF edtF : String) (vds : List Rec) (thing : Rec) :
    Option Rec :=
  if !(thing.mem "visit_occurrence_id") || isNone (thing.get "visit_occurrence_id") then
    some thing
  else
    match effStartLazy thing sdtF sdF with
    | none => none
    | some s =>
      match effEndLazy thing edtF edF s with
      | none => none
      | some e =>
        if isNone s || isNone e then some thing
        else
          match vdMatches (vdWindowTestInterval s e) (thing.get "visit_occurrence_id") vds with
          | none => none
          | some ms => applyMatchesB thing ms

/-- One pass B reconciliation over a domain's record list. -/
def reconcileB (cfg : DateCfg) (vds : List Rec) (things : List Rec) : Option (List Rec) :=
  match cfg with
  | .single dateF dtF _ => things.mapM (stepSingleB dateF dtF vds)
  | .interval sdF sdtF edF edtF _ => things.mapM (stepIntervalB sdF sdtF edF edtF vds)

/-- The `reconcile_visit_detail_FK_with_specific_domain` function
(visit_reconcilliation.py:717-880): early return when either list is falsy
or the domain is not in `domain_dates`; else process every event in place. -/
def reconcile_visit_detail_FK_with_specific_domain (domain : String)
    (domain_dict : Option (List Rec)) (visit_detail_dict : Option (List Rec)) :
    Option (Option (List Rec)) :=
  if (match visit_detail_dict with | some l => l.isEmpty | none => true) ||
      (match domain_dict with | some l => l.isEmpty | none => true) then
    some domain_dict
  else
    match domain_dict, visit_detail_dict with
    | some things, some vds =>
      match List.find? (fun e => e.1 = domain) domain_dates with
      | none => some (some things)
      | some (_, cfg) => (reconcileB cfg vds things).map some
    | _, _ => some domain_dict

/-- Loop of `assign_visit_detail_ids_to_events`
(visit_reconcilliation.py:710-713). -/
def passBloop (cfgToDomain : List (String × String)) (vds : List Rec) (data : OmopMap) :
    Option OmopMap :=
  match cfgToDomain with
  | [] => some data
  | (cfg, dom) :: rest =>
    match OmopMap.getO data cfg with
    | some (some l) =>
      if !l.isEmpty && decide (dom ∈ sixDomains) then
        match reconcile_visit_detail_FK_with_specific_domain dom (some l) (some vds) with
        | none => none
        | some newOpt => passBloop rest vds (OmopMap.setO data cfg newOpt)
      else passBloop rest vds data
    | _ => passBloop rest vds data

/-- The `assign_visit_detail_ids_to_events` entry point
(visit_reconcilliation.py:683-713): skip entirely when
`VISITDETAIL_visit_occurrence` is absent or falsy. -/
def assign_visit_detail_ids_to_events (cfgToDomain : List (String × String))
    (data : OmopMap) : Option OmopMap :=
  match OmopMap.getO data "VISITDETAIL_visit_occurrence" with
  | some (some vds) =>
    if vds.isEmpty then some data else passBloop cfgToDomain vds data
  | _ => some data


/-- The visit candidates the classifier collects from the `Visit` and
`Visit_encompassingEncounter` entries (visit_reconcilliation.py:320-329). -/
def collectedVisits (omop_dict : OmopMap) : List Rec :=
  (if OmopMap.truthy omop_dict "Visit" then
      ((OmopMap.getO omop_dict "Visit").getD none).getD [] else []) ++
  (if OmopMap.truthy omop_dict "Visit_encompassingEncounter" then
      ((OmopMap.getO omop_dict "Visit_encompassingEncounter").getD none).getD [] else [])



/-- A field's output value is absent or null. -/
def nullAt (out : Rec) (f : String) : Prop :=
  out.getK f = none ∨ ∃ w, out.getK f = some w ∧ isNone w = true


/-- One record of pass A after the second loop's cleanup. -/
def finalA (r : Rec) : Rec := Rec.del r "__visit_candidates"

/-! # DEFS-END -/

/-! # Theorems -/

/-! ### Record and map lemmas -/

theorem Rec.getK_set_self (r : Rec) (k : String) (v : PyVal) :
    (Rec.set r k v).getK k = some v := by
  induction r with
  | nil => simp [Rec.set, Rec.getK]
  | cons hd tl ih =>
    by_cases h : hd.1 = k
    · simp [Rec.set, Rec.getK, h]
    · simpa [Rec.set, Rec.getK, h, List.find?] using ih

theorem Rec.getK_set_ne (r : Rec) (k k' : String) (v : PyVal) (h : k ≠ k') :
    (Rec.set r k' v).getK k = r.getK k := by
  induction r with
  | nil => simp [Rec.set, Rec.getK, List.find?, Ne.symm h]
  | cons hd tl ih =>
    by_cases hh : hd.1 = k'
    · simp [Rec.set, Rec.getK, hh, List.find?, Ne.symm h]
    · by_cases hk : hd.1 = k
      · simp [Rec.set, Rec.getK, hh, List.find?, hk, h]
      · simpa [Rec.set, Rec.getK, hh, List.find?, hk, h] using ih

theorem Rec.getK_del_self (r : Rec) (k : String) : (Rec.del r k).getK k = none := by
  induction r with
  | nil => simp [Rec.del, Rec.getK]
  | cons hd tl ih =>
    by_cases h : hd.1 = k
    · simpa [Rec.del, Rec.getK, h] using ih
    · simpa [Rec.del, Rec.getK, h, List.find?] using ih

theorem Rec.getK_del_ne (r : Rec) (k k' : String) (h : k ≠ k') :
    (Rec.del r k').getK k = r.getK k := by
  induction r with
  | nil => simp [Rec.del, Rec.getK]
  | cons hd tl ih =>
    by_cases hh : hd.1 = k'
    · have hk : ¬hd.1 = k := by rw [hh]; exact Ne.symm h
      simpa [Rec.del, Rec.getK, List.filter, List.find?, hh, hk, Ne.symm h] using ih
    · by_cases hk : hd.1 = k
      · simp [Rec.del, Rec.getK, hh, List.find?, hk, h]
      · simpa [Rec.del, Rec.getK, hh, List.find?, hk, h] using ih

theorem OmopMap.getO_setO_self (m : OmopMap) (k : String) (v : Option (List Rec)) :
    OmopMap.getO (OmopMap.setO m k v) k = some v := by
  induction m with
  | nil => simp [OmopMap.setO, OmopMap.getO]
  | cons hd tl ih =>
    by_cases h : hd.1 = k
    · simp [OmopMap.setO, OmopMap.getO, h]
    · simpa [OmopMap.setO, OmopMap.getO, h, List.find?] using ih

theorem OmopMap.getO_setO_ne (m : OmopMap) (k k' : String) (v : Option (List Rec))
    (h : k ≠ k') : OmopMap.getO (OmopMap.setO m k' v) k = OmopMap.getO m k := by
  induction m with
  | nil => simp [OmopMap.setO, OmopMap.getO, List.find?, Ne.symm h]
  | cons hd tl ih =>
    by_cases hh : hd.1 = k'
    · simp [OmopMap.setO, OmopMap.getO, hh, List.find?, Ne.symm h]
    · by_cases hk : hd.1 = k
      · simp [OmopMap.setO, OmopMap.getO, hh, List.find?, hk, h]
      · simpa [OmopMap.setO, OmopMap.getO, hh, List.find?, hk, h] using ih

/-! ### Hasher lemmas and claim C7 -/

theorem charToUpper_toNat (c : Char) :
    (Char.toUpper c).toNat = if 97 ≤ c.toNat ∧ c.toNat ≤ 122 then c.toNat - 32 else c.toNat := by
  have h1 : Char.toUpper c =
      if c.toNat ≥ 97 ∧ c.toNat ≤ 122 then Char.ofNat (c.toNat - 32) else c := rfl
  rw [h1]
  by_cases h : 97 ≤ c.toNat ∧ c.toNat ≤ 122
  · rw [if_pos (by exact ⟨h.1, h.2⟩), if_pos h]
    have hv : (c.toNat - 32).isValidChar := Or.inl (by omega)
    unfold Char.ofNat
    rw [dif_pos hv]
    rfl
  · rw [if_neg (by exact fun hh => h ⟨hh.1, hh.2⟩), if_neg h]

theorem byteUpper_gt (b : Nat) (hb : 122 < b) : byteUpper b = b := by
  unfold byteUpper
  rw [if_neg (by omega)]

theorem byteUpper_idem (b : Nat) : byteUpper (byteUpper b) = byteUpper b := by
  unfold byteUpper
  by_cases h : 97 ≤ b ∧ b ≤ 122
  · rw [if_pos h, if_neg (by omega)]
  · rw [if_neg h, if_neg h]

/-- ASCII-uppercasing a scalar value commutes with UTF-8 encoding followed by
byte-level uppercasing: every byte of a multi-byte UTF-8 sequence is at least
128, so `bytes.upper` only ever touches one-byte (ASCII) characters. -/
theorem utf8Char_byteUpper (n : Nat) :
    utf8Char (if 97 ≤ n ∧ n ≤ 122 then n - 32 else n) = (utf8Char n).map byteUpper := by
  by_cases h : 97 ≤ n ∧ n ≤ 122
  · rw [if_pos h]
    rw [utf8Char, if_pos (show n - 32 < 128 by omega), utf8Char, if_pos (show n < 128 by omega)]
    simp [byteUpper, h]
  · rw [if_neg h]
    rcases Nat.lt_or_ge n 128 with h1 | h1
    · rw [utf8Char, if_pos h1]
      simp only [List.map]
      rw [show byteUpper n = n from by unfold byteUpper; rw [if_neg h]]
    · rcases Nat.lt_or_ge n 2048 with h2 | h2
      · rw [utf8Char, if_neg (by omega), if_pos h2]
        simp only [List.map]
        rw [byteUpper_gt _ (by omega), byteUpper_gt _ (by omega)]
      · rcases Nat.lt_or_ge n 65536 with h3 | h3
        · rw [utf8Char, if_neg (by omega), if_neg (by omega), if_pos h3]
          simp only [List.map]
          rw [byteUpper_gt _ (by omega), byteUpper_gt _ (by omega), byteUpper_gt _ (by omega)]
        · rw [utf8Char, if_neg (by omega), if_neg (by omega), if_neg (by omega)]
          simp only [List.map]
          rw [byteUpper_gt _ (by omega), byteUpper_gt _ (by omega), byteUpper_gt _ (by omega),
            byteUpper_gt _ (by omega)]

theorem utf8List_upper (l : List Char) :
    (l.map Char.toUpper).foldr (fun c acc => utf8Char c.toNat ++ acc) [] =
      (l.foldr (fun c acc => utf8Char c.toNat ++ acc) []).map byteUpper := by
  induction l with
  | nil => rfl
  | cons c cs ih =>
    simp only [List.map, List.foldr, List.map_append]
    rw [ih, charToUpper_toNat, utf8Char_byteUpper]

theorem utf8Encode_pyUpper (s : String) :
    utf8Encode (pyUpper s) = (utf8Encode s).map byteUpper :=
  utf8List_upper s.data

theorem pyUpper_ne_empty (x : String) (hx : x ≠ "") : pyUpper x ≠ "" := by
  intro hcon
  apply hx
  have hdata : x.data.map Char.toUpper = [] := congrArg String.data hcon
  have hd : x.data = [] := List.map_eq_nil_iff.mp hdata
  cases x with
  | mk d =>
    simp only at hd
    rw [hd]

/-- C7: the Deterministic Hasher satisfies `hash("") = Null`; for every string
`x`, `hash(x) = hash(uppercase(x))` (uppercase being the ASCII case map, the
fragment of `str.upper` that `bytes.upper` in the source realises); and for
non-empty input the result is exactly the first 13 hexadecimal characters of
the 128-bit MD5 digest of the uppercased input, parsed as a base-16 unsigned
integer and represented as a 64-bit integer.  `create_hash` is a pure
function, so the value is identical on every call. -/
theorem claim_C7_hasher :
    create_hash "" = none ∧
    (∀ x : String, create_hash x = create_hash (pyUpper x)) ∧
    (∀ x : String, x ≠ "" →
      create_hash x =
        some (toInt64 (hexToNat ((md5HexDigest (utf8Encode (pyUpper x))).take 13)))) := by
  refine ⟨rfl, ?_, ?_⟩
  · intro x
    by_cases hx : x = ""
    · subst hx; rfl
    · rw [create_hash, if_neg hx, create_hash, if_neg (pyUpper_ne_empty x hx),
        utf8Encode_pyUpper]
      have hmm : ((utf8Encode x).map byteUpper).map byteUpper = (utf8Encode x).map byteUpper := by
        rw [List.map_map]
        apply List.map_congr_left
        intro b _
        exact byteUpper_idem b
      rw [hmm]
  · intro x hx
    rw [create_hash, if_neg hx, utf8Encode_pyUpper]

set_option maxRecDepth 100000 in
/-- Witness for C7 at the concrete input `"a"`. -/
theorem claim_C7_hasher_witness :
    ("a" : String) ≠ "" ∧
    create_hash "a" =
      some (toInt64 (hexToNat ((md5HexDigest (utf8Encode (pyUpper "a"))).take 13))) :=
  ⟨by decide, claim_C7_hasher.2.2 "a" (by decide)⟩

/-! ### Claim C6 — epoch sentinel on date-parse failure -/

/-- C6: for a field of data_type Date or DateTime, when the permissive
textual date parse of the source value fails, the resolved field value is the
fixed epoch sentinel — `date(1970, 1, 1)` (day 0) for Date and
`datetime(1970, 1, 1, 0, 0)` (naive second 0) for DateTime — and no error or
Null is propagated.  (`cast_to_date` produces the sentinel itself; the
`cast_to_datetime` failure handler raises, and the `except` around the call
in `parse_field_from_dict` substitutes the datetime sentinel.) -/
theorem claim_C6_epoch_sentinel :
    ∀ (dparse : DateParser) (s : String), dparse s = none →
      cast_to_date dparse s = PyVal.date 0 ∧
      cast_to_datetime dparse s = .error () ∧
      ∀ (el at_ : String) (fs : FieldSpec) (iparse : String → Option Int)
        (fparse : String → FloatRes),
        fs.element = some el → fs.attr = some at_ →
        (fs.data_type = some "DATE" →
          parse_field_from_dict fs (.found (some s)) dparse iparse fparse =
            .ok (.date 0)) ∧
        (fs.data_type = some "DATETIME" →
          parse_field_from_dict fs (.found (some s)) dparse iparse fparse =
            .ok (.dt 0 none)) := by
  intro dparse s h
  refine ⟨?_, ?_, ?_⟩
  · unfold cast_to_date
    rw [h]
  · unfold cast_to_datetime
    rw [h]
  · intro el at_ fs iparse fparse hel hat
    constructor
    · intro hdt
      simp only [parse_field_from_dict, hel, hat, hdt]
      simp [cast_to_date, h]
    · intro hdt
      simp only [parse_field_from_dict, hel, hat, hdt]
      simp [cast_to_datetime, h]

/-- Witness for C6 at a concrete failing parse. -/
theorem claim_C6_epoch_sentinel_witness :
    ((fun (_ : String) => (none : Option (Int × Option Int))) "never-a-date" = none) ∧
    cast_to_date (fun _ => none) "never-a-date" = PyVal.date 0 ∧
    cast_to_datetime (fun _ => none) "never-a-date" = .error () ∧
    parse_field_from_dict
        { config_type := some "FIELD", element := some "el", attr := some "code",
          data_type := some "DATE" }
        (.found (some "never-a-date")) (fun _ => none) (fun _ => none) (fun _ => .err) =
      .ok (.date 0) ∧
    parse_field_from_dict
        { config_type := some "FIELD", element := some "el", attr := some "code",
          data_type := some "DATETIME" }
        (.found (some "never-a-date")) (fun _ => none) (fun _ => none) (fun _ => .err) =
      .ok (.dt 0 none) := by
  have h := claim_C6_epoch_sentinel (fun _ => none) "never-a-date" rfl
  exact ⟨rfl, h.1, h.2.1,
    (h.2.2 "el" "code" _ (fun _ => none) (fun _ => .err) rfl rfl).1 rfl,
    (h.2.2 "el" "code" _ (fun _ => none) (fun _ => .err) rfl rfl).2 rfl⟩

/-! ### Claim C3 — Foreign Key phase -/

theorem do_fk_getK_of_not_mem (config : Config) (out : Rec) (err : List String)
    (pk : PkMap) (f : String) (hf : f ∉ config.map Prod.fst) :
    (do_foreign_key_fields config out err pk).1.getK f = out.getK f := by
  induction config generalizing out err with
  | nil => rfl
  | cons hd tl ih =>
    obtain ⟨g, gs⟩ := hd
    have hgf : f ≠ g := by
      intro hc
      exact hf (by simp [hc])
    have htl : f ∉ tl.map Prod.fst := by
      intro hc
      exact hf (by simp [hc])
    by_cases hfk : gs.config_type = some "FK"
    · simp only [do_foreign_key_fields, hfk, if_pos]
      cases hpk : PkMap.getList pk g with
      | nil => rw [ih _ _ htl, Rec.getK_set_ne _ _ _ _ hgf]
      | cons v rest =>
        cases rest with
        | nil => rw [ih _ _ htl, Rec.getK_set_ne _ _ _ _ hgf]
        | cons w rest2 => rw [ih _ _ htl, Rec.getK_set_ne _ _ _ _ hgf]
    · simp only [do_foreign_key_fields, hfk, if_neg, ite_false]
      exact ih _ _ htl

theorem do_fk_err_mono (config : Config) (out : Rec) (err : List String)
    (pk : PkMap) (x : String) (hx : x ∈ err) :
    x ∈ (do_foreign_key_fields config out err pk).2 := by
  induction config generalizing out err with
  | nil => exact hx
  | cons hd tl ih =>
    obtain ⟨g, gs⟩ := hd
    by_cases hfk : gs.config_type = some "FK"
    · simp only [do_foreign_key_fields, hfk, if_pos]
      cases hpk : PkMap.getList pk g with
      | nil => exact ih _ _ (List.mem_cons_of_mem _ hx)
      | cons v rest =>
        cases rest with
        | nil => exact ih _ _ hx
        | cons w rest2 => exact ih _ _ hx
    · simp only [do_foreign_key_fields, hfk, if_neg, ite_false]
      exact ih _ _ hx

/-- C3: in the Foreign Key phase, an FK field whose `PKTable` entry holds
exactly one value receives that value; an empty (or absent) entry yields
`None` and the field name enters the error set; an entry with several values
yields the fixed `-1` sentinel (`'RECONCILE FK'`) — no value from the table
is chosen, whatever the table holds. -/
theorem claim_C3_foreign_key :
    ∀ (config : Config) (out : Rec) (err : List String) (pk : PkMap)
      (f : String) (fs : FieldSpec),
      (config.map Prod.fst).Nodup → (f, fs) ∈ config → fs.config_type = some "FK" →
      (∀ v, PkMap.getList pk f = [v] →
        (do_foreign_key_fields config out err pk).1.getK f = some v) ∧
      (PkMap.getList pk f = [] →
        (do_foreign_key_fields config out err pk).1.getK f = some .pnone ∧
        f ∈ (do_foreign_key_fields config out err pk).2) ∧
      (2 ≤ (PkMap.getList pk f).length →
        (do_foreign_key_fields config out err pk).1.getK f = some (.int (-1))) := by
  intro config
  induction config with
  | nil => intro out err pk f fs _ hmem; cases hmem
  | cons hd tl ih =>
    intro out err pk f fs hnd hmem hfk
    obtain ⟨g, gs⟩ := hd
    rcases List.mem_cons.mp hmem with heq | htl
    · obtain ⟨rfl, rfl⟩ := Prod.mk.injEq .. ▸ heq
      have hnotin : f ∉ tl.map Prod.fst := by
        have := hnd
        simp only [List.map, List.nodup_cons] at this
        exact this.1
      refine ⟨?_, ?_, ?_⟩
      · intro v hv
        simp only [do_foreign_key_fields, hfk, if_pos, hv]
        rw [do_fk_getK_of_not_mem _ _ _ _ _ hnotin, Rec.getK_set_self]
      · intro hv
        simp only [do_foreign_key_fields, hfk, if_pos, hv]
        constructor
        · rw [do_fk_getK_of_not_mem _ _ _ _ _ hnotin, Rec.getK_set_self]
        · exact do_fk_err_mono _ _ _ _ _ (List.mem_cons_self _ _)
      · intro hlen
        cases hv : PkMap.getList pk f with
        | nil => rw [hv] at hlen; simp at hlen
        | cons v rest =>
          cases rest with
          | nil => rw [hv] at hlen; simp at hlen
          | cons w rest2 =>
            simp only [do_foreign_key_fields, hfk, if_pos, hv]
            rw [do_fk_getK_of_not_mem _ _ _ _ _ hnotin, Rec.getK_set_self]
    · have hnd' : (tl.map Prod.fst).Nodup := by
        simp only [List.map, List.nodup_cons] at hnd
        exact hnd.2
      have step := fun o e => ih o e pk f fs hnd' htl hfk
      by_cases hg : gs.config_type = some "FK"
      · simp only [do_foreign_key_fields, hg, if_pos]
        cases hpk : PkMap.getList pk g with
        | nil => exact step _ _
        | cons v rest =>
          cases rest with
          | nil => exact step _ _
          | cons w rest2 => exact step _ _
      · simp only [do_foreign_key_fields, hg, if_neg, ite_false]
        exact step _ _

/-- Witness for C3: a three-field FK config against a PK table holding one,
zero and two values respectively. -/
theorem claim_C3_foreign_key_witness :
    ((([("person_id", ({ config_type := some "FK" } : FieldSpec)),
        ("visit_occurrence_id", { config_type := some "FK" }),
        ("provider_id", { config_type := some "FK" })] : Config).map Prod.fst).Nodup) ∧
    (do_foreign_key_fields
        [("person_id", { config_type := some "FK" }),
         ("visit_occurrence_id", { config_type := some "FK" }),
         ("provider_id", { config_type := some "FK" })]
        [] [] [("person_id", [.int 7]), ("visit_occurrence_id", [.int 7, .int 9])]).1.getK
        "person_id" = some (.int 7) ∧
    (do_foreign_key_fields
        [("person_id", { config_type := some "FK" }),
         ("visit_occurrence_id", { config_type := some "FK" }),
         ("provider_id", { config_type := some "FK" })]
        [] [] [("person_id", [.int 7]), ("visit_occurrence_id", [.int 7, .int 9])]).1.getK
        "provider_id" = some .pnone ∧
    "provider_id" ∈ (do_foreign_key_fields
        [("person_id", { config_type := some "FK" }),
         ("visit_occurrence_id", { config_type := some "FK" }),
         ("provider_id", { config_type := some "FK" })]
        [] [] [("person_id", [.int 7]), ("visit_occurrence_id", [.int 7, .int 9])]).2 ∧
    (do_foreign_key_fields
        [("person_id", { config_type := some "FK" }),
         ("visit_occurrence_id", { config_type := some "FK" }),
         ("provider_id", { config_type := some "FK" })]
        [] [] [("person_id", [.int 7]), ("visit_occurrence_id", [.int 7, .int 9])]).1.getK
        "visit_occurrence_id" = some (.int (-1)) := by
  have h := fun f fs hmem hfk => claim_C3_foreign_key
      [("person_id", ({ config_type := some "FK" } : FieldSpec)),
       ("visit_occurrence_id", { config_type := some "FK" }),
       ("provider_id", { config_type := some "FK" })]
      [] []
      [("person_id", [PyVal.int 7]), ("visit_occurrence_id", [PyVal.int 7, PyVal.int 9])]
      f fs (by decide) hmem hfk
  refine ⟨by decide, ?_, ?_, ?_, ?_⟩
  · exact (h "person_id" _ (List.mem_cons_self _ _) rfl).1 (.int 7) rfl
  · exact ((h "provider_id" _
      (List.mem_cons_of_mem _ (List.mem_cons_of_mem _ (List.mem_cons_self _ _))) rfl).2.1
      rfl).1
  · exact ((h "provider_id" _
      (List.mem_cons_of_mem _ (List.mem_cons_of_mem _ (List.mem_cons_self _ _))) rfl).2.1
      rfl).2
  · exact (h "visit_occurrence_id" _
      (List.mem_cons_of_mem _ (List.mem_cons_self _ _)) rfl).2.2 (by decide)

/-! ### Claim C8 — domain routing -/

/-- C8: after the resolution phases a row is kept — `domain_routing` returns
a record, namely the ordered/pruned one — exactly when the `domain_id` read
from the pre-pruning record equals the root spec's `expected_domain_id`, or
the latter names one of the header tables Person, Location, Care_Site,
Provider, Visit; otherwise the row is dropped.  In particular a
Measurement-table config whose computed `domain_id` is `"Drug"` yields a
rejected row. -/
theorem claim_C8_domain_routing :
    ∀ (out : Rec) (config : Config) (rootFs : FieldSpec) (r : Option Rec),
      Config.find config "root" = some rootFs →
      domain_routing out config = .ok r →
      ((r ≠ none ↔
        (eqExpected rootFs.expected_domain_id (out.get "domain_id") = true ∨
         ∃ s, rootFs.expected_domain_id = some s ∧ s ∈ headerTables)) ∧
       (r ≠ none → r = some (sort_output_and_omit_dict out config)) ∧
       (rootFs.expected_domain_id = some "Measurement" →
        out.get "domain_id" = .str "Drug" → r = none)) := by
  intro out config rootFs r hroot hok
  simp only [domain_routing, hroot] at hok
  by_cases hc : (eqExpected rootFs.expected_domain_id (out.get "domain_id") ||
      (match rootFs.expected_domain_id with
       | some s => decide (s ∈ headerTables)
       | none => false)) = true
  · rw [if_pos hc] at hok
    have hr : r = some (sort_output_and_omit_dict out config) := by
      cases hna : needAll (sort_output_and_omit_dict out config)
          (acceptLogKeys rootFs.expected_domain_id) with
      | ok u => rw [hna] at hok; exact (Except.ok.injEq _ _ ▸ hok).symm
      | error e => rw [hna] at hok; cases hok
    have hcond : eqExpected rootFs.expected_domain_id (out.get "domain_id") = true ∨
        ∃ s, rootFs.expected_domain_id = some s ∧ s ∈ headerTables := by
      rcases Bool.or_eq_true_iff.mp hc with h1 | h2
      · exact Or.inl h1
      · right
        cases he : rootFs.expected_domain_id with
        | none => rw [he] at h2; cases h2
        | some s =>
          rw [he] at h2
          exact ⟨s, rfl, of_decide_eq_true h2⟩
    refine ⟨?_, ?_, ?_⟩
    · constructor
      · intro _; exact hcond
      · intro _; rw [hr]; simp
    · intro _; exact hr
    · intro hm hd
      rw [hm, hd] at hc
      simp [eqExpected, pyEqB, headerTables] at hc
  · rw [if_neg hc] at hok
    have hr : r = none := by
      cases hna : needAll (sort_output_and_omit_dict out config)
          (rejectLogKeys rootFs.expected_domain_id) with
      | ok u => rw [hna] at hok; exact (Except.ok.injEq _ _ ▸ hok).symm
      | error e => rw [hna] at hok; cases hok
    refine ⟨?_, ?_, fun _ _ => hr⟩
    · constructor
      · intro hne; exact absurd hr hne
      · intro hcond
        exfalso
        apply hc
        rcases hcond with h1 | ⟨s, hs, hmem⟩
        · exact Bool.or_eq_true_iff.mpr (Or.inl h1)
        · refine Bool.or_eq_true_iff.mpr (Or.inr ?_)
          rw [hs]
          exact decide_eq_true hmem
    · intro hne; exact absurd hr hne

/-- Witness for C8: a Measurement config computing `domain_id = "Drug"` is
rejected — `domain_routing` returns `.ok none`, i.e. no record. -/
theorem claim_C8_domain_routing_witness :
    (Config.find
        [("root", { expected_domain_id := some "Measurement" }),
         ("measurement_id", { order := some 1 }),
         ("measurement_concept_id", { order := some 2 })] "root" =
      some ({ expected_domain_id := some "Measurement" } : FieldSpec)) ∧
    (domain_routing
        [("measurement_id", .int 11), ("measurement_concept_id", .int 12),
         ("domain_id", .str "Drug")]
        [("root", { expected_domain_id := some "Measurement" }),
         ("measurement_id", { order := some 1 }),
         ("measurement_concept_id", { order := some 2 })] = .ok none) ∧
    ((none : Option Rec) = none) :=
  ⟨rfl, rfl,
    (claim_C8_domain_routing
      [("measurement_id", PyVal.int 11), ("measurement_concept_id", PyVal.int 12),
       ("domain_id", PyVal.str "Drug")]
      [("root", { expected_domain_id := some "Measurement" }),
       ("measurement_id", { order := some 1 }),
       ("measurement_concept_id", { order := some 2 })]
      { expected_domain_id := some "Measurement" } none rfl rfl).2.2 rfl rfl⟩

/-! ### Claim C10 — singleton early return of the classifier -/

/-- C10 (implicit): when the visit candidates collected from `Visit` and
`Visit_encompassingEncounter` together number exactly one, the classifier
returns early with that single-record list stored under `Visit` — no
deduplication runs and the `Visit_encompassingEncounter` entry is not
removed, so a lone visit coming from the encompassing-encounter source stays
present under both keys of the result. -/
theorem claim_C10_singleton_early_return :
    ∀ (omop_dict : OmopMap), (collectedVisits omop_dict).length = 1 →
      reclassify_nested_visit_occurrences_as_detail omop_dict =
        some (OmopMap.setO omop_dict "Visit" (some (collectedVisits omop_dict))) ∧
      OmopMap.getO (OmopMap.setO omop_dict "Visit" (some (collectedVisits omop_dict)))
          "Visit_encompassingEncounter" =
        OmopMap.getO omop_dict "Visit_encompassingEncounter" ∧
      OmopMap.getO (OmopMap.setO omop_dict "Visit" (some (collectedVisits omop_dict)))
          "Visit" = some (some (collectedVisits omop_dict)) := by
  intro omop_dict hlen
  have hne : (collectedVisits omop_dict).isEmpty = false := by
    cases hl : collectedVisits omop_dict with
    | nil => rw [hl] at hlen; cases hlen
    | cons a l => rfl
  refine ⟨?_, ?_, ?_⟩
  · simp only [reclassify_nested_visit_occurrences_as_detail]
    rw [show ((if OmopMap.truthy omop_dict "Visit" then
        ((OmopMap.getO omop_dict "Visit").getD none).getD [] else []) ++
      (if OmopMap.truthy omop_dict "Visit_encompassingEncounter" then
        ((OmopMap.getO omop_dict "Visit_encompassingEncounter").getD none).getD [] else []))
        = collectedVisits omop_dict from rfl]
    rw [hne, hlen]
    simp
  · exact OmopMap.getO_setO_ne _ _ _ _ (by decide)
  · exact OmopMap.getO_setO_self _ _ _

/-- Witness for C10: an omop dict whose only visit row comes from
`Visit_encompassingEncounter`; after the classifier it is present both under
`Visit` and under `Visit_encompassingEncounter`. -/
theorem claim_C10_singleton_early_return_witness :
    (collectedVisits
        [("Visit_encompassingEncounter",
          some [[("visit_occurrence_id", .int 5),
                 ("cfg_name", .str "Visit_encompassingEncounter")]])]).length = 1 ∧
    reclassify_nested_visit_occurrences_as_detail
        [("Visit_encompassingEncounter",
          some [[("visit_occurrence_id", .int 5),
                 ("cfg_name", .str "Visit_encompassingEncounter")]])] =
      some (OmopMap.setO
        [("Visit_encompassingEncounter",
          some [[("visit_occurrence_id", .int 5),
                 ("cfg_name", .str "Visit_encompassingEncounter")]])]
        "Visit"
        (some (collectedVisits
          [("Visit_encompassingEncounter",
            some [[("visit_occurrence_id", .int 5),
                   ("cfg_name", .str "Visit_encompassingEncounter")]])]))) ∧
    OmopMap.getO (OmopMap.setO
        [("Visit_encompassingEncounter",
          some [[("visit_occurrence_id", .int 5),
                 ("cfg_name", .str "Visit_encompassingEncounter")]])]
        "Visit"
        (some (collectedVisits
          [("Visit_encompassingEncounter",
            some [[("visit_occurrence_id", .int 5),
                   ("cfg_name", .str "Visit_encompassingEncounter")]])])))
        "Visit_encompassingEncounter" =
      some (some [[("visit_occurrence_id", .int 5),
                   ("cfg_name", .str "Visit_encompassingEncounter")]]) := by
  have h := claim_C10_singleton_early_return
      [("Visit_encompassingEncounter",
        some [[("visit_occurrence_id", PyVal.int 5),
               ("cfg_name", PyVal.str "Visit_encompassingEncounter")]])] rfl
  refine ⟨rfl, h.1, ?_⟩
  rw [h.2.1]
  rfl

/-! ### Claim C5 — Priority phase -/

theorem PkMap.getList_push_self (p : PkMap) (k : String) (v : PyVal) :
    (PkMap.push p k v).getList k = PkMap.getList p k ++ [v] := by
  induction p with
  | nil => simp [PkMap.push, PkMap.getList]
  | cons hd tl ih =>
    by_cases h : hd.1 = k
    · simp [PkMap.push, PkMap.getList, h]
    · simpa [PkMap.push, PkMap.getList, h, List.find?] using ih

theorem PkMap.getList_push_ne (p : PkMap) (k k' : String) (v : PyVal) (h : k ≠ k') :
    (PkMap.push p k' v).getList k = PkMap.getList p k := by
  induction p with
  | nil => simp [PkMap.push, PkMap.getList, List.find?, Ne.symm h]
  | cons hd tl ih =>
    by_cases hh : hd.1 = k'
    · simp [PkMap.push, PkMap.getList, hh, List.find?, Ne.symm h]
    · by_cases hk : hd.1 = k
      · simp [PkMap.push, PkMap.getList, hh, List.find?, hk, h]
      · simpa [PkMap.push, PkMap.getList, hh, List.find?, hk, h] using ih

theorem stableInsertBy_perm (key : α → Int) (x : α) (l : List α) :
    (stableInsertBy key x l).Perm (x :: l) := by
  induction l with
  | nil => exact List.Perm.refl _
  | cons y ys ih =>
    by_cases h : key y < key x
    · simp only [stableInsertBy, if_pos h]
      exact (ih.cons y).trans (List.Perm.swap x y ys)
    · simp only [stableInsertBy, if_neg h]
      exact List.Perm.refl _

theorem stableSortBy_perm (key : α → Int) (l : List α) :
    (stableSortBy key l).Perm l := by
  induction l with
  | nil => exact List.Perm.refl _
  | cons x xs ih =>
    exact (stableInsertBy_perm key x (stableSortBy key xs)).trans (ih.cons x)

theorem pairwise_stableInsertBy (key : α → Int) (x : α) (l : List α)
    (h : l.Pairwise (fun a b => key a ≤ key b)) :
    (stableInsertBy key x l).Pairwise (fun a b => key a ≤ key b) := by
  induction l with
  | nil => simp [stableInsertBy]
  | cons y ys ih =>
    rcases List.pairwise_cons.mp h with ⟨hy, hys⟩
    by_cases hlt : key y < key x
    · simp only [stableInsertBy, if_pos hlt]
      refine List.pairwise_cons.mpr ⟨?_, ih hys⟩
      intro b hb
      have hmem : b ∈ x :: ys := (stableInsertBy_perm key x ys).mem_iff.mp hb
      rcases List.mem_cons.mp hmem with hbx | hbys
      · rw [hbx]; omega
      · exact hy b hbys
    · simp only [stableInsertBy, if_neg hlt]
      refine List.pairwise_cons.mpr ⟨?_, h⟩
      intro b hb
      rcases List.mem_cons.mp hb with hby | hbys
      · rw [hby]; omega
      · have := hy b hbys; omega

theorem pairwise_stableSortBy (key : α → Int) (l : List α) :
    (stableSortBy key l).Pairwise (fun a b => key a ≤ key b) := by
  induction l with
  | nil => simp [stableSortBy]
  | cons x xs ih => exact pairwise_stableInsertBy key x _ ih

theorem chooseFirst_some_spec (l : List (String × Int)) (out : Rec) (v : PyVal) :
    chooseFirst l out = some v →
    ∃ pre f rk post, l = pre ++ (f, rk) :: post ∧ out.getK f = some v ∧ isNone v = false ∧
      ∀ p ∈ pre, nullAt out p.1 := by
  induction l with
  | nil => intro h; cases h
  | cons hd rest ih =>
    intro h
    obtain ⟨f0, r0⟩ := hd
    simp only [chooseFirst] at h
    cases hk : out.getK f0 with
    | some w =>
      rw [hk] at h
      dsimp only at h
      by_cases hn : isNone w
      · rw [if_pos hn] at h
        obtain ⟨pre, f, rk, post, hl, hv, hnn, hpre⟩ := ih h
        refine ⟨(f0, r0) :: pre, f, rk, post, by rw [hl]; rfl, hv, hnn, ?_⟩
        intro p hp
        rcases List.mem_cons.mp hp with hph | hpt
        · rw [hph]; exact Or.inr ⟨w, hk, hn⟩
        · exact hpre p hpt
      · rw [if_neg hn] at h
        obtain rfl := Option.some.injEq .. ▸ h
        exact ⟨[], f0, r0, rest, rfl, hk, by simpa using hn, by simp⟩
    | none =>
      rw [hk] at h
      dsimp only at h
      obtain ⟨pre, f, rk, post, hl, hv, hnn, hpre⟩ := ih h
      refine ⟨(f0, r0) :: pre, f, rk, post, by rw [hl]; rfl, hv, hnn, ?_⟩
      intro p hp
      rcases List.mem_cons.mp hp with hph | hpt
      · rw [hph]; exact Or.inl hk
      · exact hpre p hpt

theorem chooseFirst_none_spec (l : List (String × Int)) (out : Rec) :
    chooseFirst l out = none → ∀ p ∈ l, nullAt out p.1 := by
  induction l with
  | nil => intro _ p hp; cases hp
  | cons hd rest ih =>
    intro h p hp
    obtain ⟨f0, r0⟩ := hd
    simp only [chooseFirst] at h
    cases hk : out.getK f0 with
    | some w =>
      rw [hk] at h
      dsimp only at h
      by_cases hn : isNone w
      · rw [if_pos hn] at h
        rcases List.mem_cons.mp hp with hph | hpt
        · rw [hph]; exact Or.inr ⟨w, hk, hn⟩
        · exact ih h p hpt
      · rw [if_neg hn] at h; cases h
    | none =>
      rw [hk] at h
      dsimp only at h
      rcases List.mem_cons.mp hp with hph | hpt
      · rw [hph]; exact Or.inl hk
      · exact ih h p hpt

theorem chooseFirst_set_ne (l : List (String × Int)) (out : Rec) (t' : String) (w : PyVal)
    (h : ∀ p ∈ l, p.1 ≠ t') : chooseFirst l (out.set t' w) = chooseFirst l out := by
  induction l with
  | nil => rfl
  | cons hd rest ih =>
    simp only [chooseFirst]
    rw [Rec.getK_set_ne _ _ _ _ (h hd (List.mem_cons_self _ _))]
    cases out.getK hd.1 with
    | some v =>
      dsimp only
      by_cases hn : isNone v
      · rw [if_pos hn, if_pos hn]
        exact ih (fun p hp => h p (List.mem_cons_of_mem _ hp))
      · rw [if_neg hn, if_neg hn]
    | none =>
      dsimp only
      exact ih (fun p hp => h p (List.mem_cons_of_mem _ hp))

theorem processGroups_preserved (groups : List (String × List (String × Int)))
    (out : Rec) (pk : PkMap) (t : String) (ht : t ∉ groups.map Prod.fst) :
    (processGroups groups out pk).1.getK t = out.getK t ∧
    PkMap.getList (processGroups groups out pk).2 t = PkMap.getList pk t := by
  induction groups generalizing out pk with
  | nil => exact ⟨rfl, rfl⟩
  | cons hd rest ih =>
    obtain ⟨t', ms⟩ := hd
    have htne : t ≠ t' := fun hc => ht (by simp [hc])
    have htl : t ∉ rest.map Prod.fst := fun hc => ht (by simp [hc])
    simp only [processGroups]
    cases chooseFirst (stableSortBy (fun p => p.2) ms) out with
    | some v =>
      obtain ⟨h1, h2⟩ := ih (out.set t' v) (pk.push t' v) htl
      exact ⟨by rw [h1, Rec.getK_set_ne _ _ _ _ htne],
        by rw [h2, PkMap.getList_push_ne _ _ _ _ htne]⟩
    | none =>
      obtain ⟨h1, h2⟩ := ih (out.set t' .pnone) (pk.push t' .pnone) htl
      exact ⟨by rw [h1, Rec.getK_set_ne _ _ _ _ htne],
        by rw [h2, PkMap.getList_push_ne _ _ _ _ htne]⟩

theorem processGroups_group_result (groups : List (String × List (String × Int)))
    (out : Rec) (pk : PkMap) (t : String) (members : List (String × Int))
    (hmem : (t, members) ∈ groups) (hnd : (groups.map Prod.fst).Nodup)
    (hdisj : ∀ tg ∈ groups.map Prod.fst, ∀ m ∈ members.map Prod.fst, m ≠ tg) :
    (processGroups groups out pk).1.getK t =
      some ((chooseFirst (stableSortBy (fun p => p.2) members) out).getD .pnone) ∧
    PkMap.getList (processGroups groups out pk).2 t =
      PkMap.getList pk t ++
        [(chooseFirst (stableSortBy (fun p => p.2) members) out).getD .pnone] := by
  induction groups generalizing out pk with
  | nil => cases hmem
  | cons hd rest ih =>
    obtain ⟨t', ms⟩ := hd
    rcases List.mem_cons.mp hmem with heq | htl
    · obtain ⟨rfl, rfl⟩ := Prod.mk.injEq .. ▸ heq
      have hnotin : t ∉ rest.map Prod.fst := by
        simp only [List.map, List.nodup_cons] at hnd
        exact hnd.1
      simp only [processGroups]
      cases hch : chooseFirst (stableSortBy (fun p => p.2) members) out with
      | some v =>
        obtain ⟨h1, h2⟩ := processGroups_preserved rest (out.set t v) (pk.push t v) t hnotin
        refine ⟨?_, ?_⟩
        · rw [h1, Rec.getK_set_self]
          rfl
        · rw [h2, PkMap.getList_push_self]
          rfl
      | none =>
        obtain ⟨h1, h2⟩ :=
          processGroups_preserved rest (out.set t .pnone) (pk.push t .pnone) t hnotin
        refine ⟨?_, ?_⟩
        · rw [h1, Rec.getK_set_self]
          rfl
        · rw [h2, PkMap.getList_push_self]
          rfl
    · have hnd' : (rest.map Prod.fst).Nodup := by
        simp only [List.map, List.nodup_cons] at hnd
        exact hnd.2
      have hdisj' : ∀ tg ∈ rest.map Prod.fst, ∀ m ∈ members.map Prod.fst, m ≠ tg :=
        fun tg htg => hdisj tg (List.mem_cons_of_mem _ htg)
      have htne : t ≠ t' := by
        intro hc
        simp only [List.map, List.nodup_cons] at hnd
        exact hnd.1 (hc ▸ (List.mem_map_of_mem Prod.fst htl))
      have hmemne : ∀ p ∈ stableSortBy (fun p => p.2) members, p.1 ≠ t' := by
        intro p hp
        have hpm : p ∈ members := (stableSortBy_perm _ members).mem_iff.mp hp
        exact hdisj t' (by simp) p.1 (List.mem_map_of_mem Prod.fst hpm)
      simp only [processGroups]
      cases hch : chooseFirst (stableSortBy (fun p => p.2) ms) out with
      | some v =>
        obtain ⟨h1, h2⟩ := ih (out.set t' v) (pk.push t' v) htl hnd' hdisj'
        rw [chooseFirst_set_ne _ _ _ _ hmemne] at h1 h2
        rw [PkMap.getList_push_ne _ _ _ _ htne] at h2
        exact ⟨h1, h2⟩
      | none =>
        obtain ⟨h1, h2⟩ := ih (out.set t' .pnone) (pk.push t' .pnone) htl hnd' hdisj'
        rw [chooseFirst_set_ne _ _ _ _ hmemne] at h1 h2
        rw [PkMap.getList_push_ne _ _ _ _ htne] at h2
        exact ⟨h1, h2⟩

theorem addPriority_keys (groups : List (String × List (String × Int))) (t : String)
    (e : String × Int) :
    (addPriority groups t e).map Prod.fst =
      if t ∈ groups.map Prod.fst then groups.map Prod.fst
      else groups.map Prod.fst ++ [t] := by
  induction groups with
  | nil => simp [addPriority]
  | cons hd rest ih =>
    obtain ⟨t', l⟩ := hd
    by_cases h : t' = t
    · simp [addPriority, h]
    · simp only [addPriority, if_neg h, List.map, ih]
      by_cases hmem : t ∈ rest.map Prod.fst
      · rw [if_pos hmem, if_pos (by simp [hmem])]
      · rw [if_neg hmem, if_neg (by simp [hmem, Ne.symm h])]
        rfl

theorem priorityGroups_keys_nodup (config : Config)
    (acc : List (String × List (String × Int))) (hacc : (acc.map Prod.fst).Nodup) :
    ((priorityGroups config acc).map Prod.fst).Nodup := by
  induction config generalizing acc with
  | nil => exact hacc
  | cons hd rest ih =>
    obtain ⟨f, fs⟩ := hd
    simp only [priorityGroups]
    cases fs.priority with
    | none => exact ih acc hacc
    | some pr =>
      apply ih
      rw [addPriority_keys]
      by_cases hmem : pr.1 ∈ acc.map Prod.fst
      · rw [if_pos hmem]; exact hacc
      · rw [if_neg hmem]
        exact List.Nodup.append hacc (List.nodup_singleton _)
          (by simpa [List.disjoint_right] using hmem)

/-- C5 (amended): for every group of fields declaring the same priority
target, the value written under the target — and appended to
`PKTable[target]` — is the output value of the lowest-rank member whose
already-resolved output value is non-null (stable rank order, embodied in
`chooseFirst` over the rank-sorted member list, with the minimal-rank
property proved explicitly); when no member has a non-null value, `Null` is
written and appended — the phase has no default mechanism, so any declared
`default` is ignored (that is the corrected part of the claim).  The
`hdisj` hypothesis rules out a group target shadowing another group's member
(a situation no real configuration exhibits, where the source would read the
freshly written targets instead of the phase's input).  Includes the spec's
concrete example: members `[("a", 2), ("b", 1)]`, `out[a] = 5`,
`out[b] = None` give`5`. -/
theorem claim_C5_priority_coalesce :
    ∀ (config : Config) (out : Rec) (pk : PkMap) (t : String)
      (members : List (String × Int)),
      (t, members) ∈ priorityGroups config [] →
      (∀ tg ∈ (priorityGroups config []).map Prod.fst,
        ∀ m ∈ members.map Prod.fst, m ≠ tg) →
      ((∀ v, chooseFirst (stableSortBy (fun p => p.2) members) out = some v →
          (do_priority_fields config out pk).1.getK t = some v ∧
          PkMap.getList (do_priority_fields config out pk).2 t =
            PkMap.getList pk t ++ [v] ∧
          ∃ f rk, (f, rk) ∈ members ∧ out.getK f = some v ∧ isNone v = false ∧
            ∀ g rk', (g, rk') ∈ members →
              (∃ w, out.getK g = some w ∧ isNone w = false) → rk ≤ rk') ∧
       (chooseFirst (stableSortBy (fun p => p.2) members) out = none →
          (do_priority_fields config out pk).1.getK t = some .pnone ∧
          PkMap.getList (do_priority_fields config out pk).2 t =
            PkMap.getList pk t ++ [.pnone] ∧
          ∀ g rk', (g, rk') ∈ members → nullAt out g) ∧
       ((do_priority_fields
          [("a", { priority := some ("t", 2) }), ("b", { priority := some ("t", 1) })]
          [("a", .int 5), ("b", .pnone)] []).1.getK "t" = some (.int 5))) := by
  intro config out pk t members hmem hdisj
  have hnd := priorityGroups_keys_nodup config [] (by simp)
  have hcore := processGroups_group_result (priorityGroups config []) out pk t members
    hmem hnd hdisj
  refine ⟨?_, ?_, rfl⟩
  · intro v hch
    rw [hch] at hcore
    refine ⟨hcore.1, hcore.2, ?_⟩
    obtain ⟨pre, f, rk, post, hsplit, hv, hnn, hpre⟩ :=
      chooseFirst_some_spec _ out v hch
    have hfmem : (f, rk) ∈ members := by
      have : (f, rk) ∈ stableSortBy (fun p => p.2) members := by
        rw [hsplit]; simp
      exact (stableSortBy_perm _ members).mem_iff.mp this
    refine ⟨f, rk, hfmem, hv, hnn, ?_⟩
    intro g rk' hg ⟨w, hgw, hwn⟩
    have hgs : (g, rk') ∈ stableSortBy (fun p => p.2) members :=
      (stableSortBy_perm _ members).mem_iff.mpr hg
    rw [hsplit] at hgs
    rcases List.mem_append.mp hgs with hgpre | hgpost
    · have := hpre (g, rk') hgpre
      rcases this with hnone | ⟨w', hw', hn'⟩
      · rw [hgw] at hnone; cases hnone
      · rw [hgw] at hw'
        obtain rfl := Option.some.injEq .. ▸ hw'
        rw [hwn] at hn'; cases hn'
    · rcases List.mem_cons.mp hgpost with hgeq | hgtail
      · obtain ⟨_, rfl⟩ := Prod.mk.injEq .. ▸ hgeq
        exact le_refl _
      · have hpw := pairwise_stableSortBy (fun p => p.2) members
        rw [hsplit] at hpw
        have := (List.pairwise_append.mp hpw).2.1
        exact (List.pairwise_cons.mp this).1 (g, rk') hgtail
  · intro hch
    rw [hch] at hcore
    refine ⟨hcore.1, hcore.2, ?_⟩
    intro g rk' hg
    exact chooseFirst_none_spec _ out hch (g, rk')
      ((stableSortBy_perm _ members).mem_iff.mpr hg)

/-- Witness for C5 at the spec's concrete example configuration. -/
theorem claim_C5_priority_coalesce_witness :
    (("t", [("a", 2), ("b", 1)]) ∈ priorityGroups
      [("a", { priority := some ("t", 2) }), ("b", { priority := some ("t", 1) })] []) ∧
    (do_priority_fields
        [("a", { priority := some ("t", 2) }), ("b", { priority := some ("t", 1) })]
        [("a", .int 5), ("b", .pnone)] []).1.getK "t" = some (.int 5) ∧
    PkMap.getList (do_priority_fields
        [("a", { priority := some ("t", 2) }), ("b", { priority := some ("t", 1) })]
        [("a", .int 5), ("b", .pnone)] []).2 "t" = [.int 5] := by
  have h := claim_C5_priority_coalesce
      [("a", { priority := some ("t", 2) }), ("b", { priority := some ("t", 1) })]
      [("a", PyVal.int 5), ("b", PyVal.pnone)] [] "t" [("a", 2), ("b", 1)]
      (by simp [priorityGroups, addPriority])
      (by intro tg htg m hm
          simp [priorityGroups, addPriority] at htg
          simp at hm
          rcases hm with rfl | rfl <;> rw [htg] <;> decide)
  have h1 := h.1 (PyVal.int 5) rfl
  exact ⟨by simp [priorityGroups, addPriority], h1.1, h1.2.1⟩

/-- Counterexample for C5 as frozen: a priority group whose field spec
declares `default := 7` and whose only member resolves to `None` still
produces `None`, not the declared default — `do_priority_fields` reads no
`default` attribute at all. -/
theorem claim_C5_counterexample :
    (do_priority_fields
        [("a", { priority := some ("t", 1), default := some (.int 7) })]
        [("a", .pnone)] []).1.getK "t" = some .pnone ∧
    some PyVal.pnone ≠ some (PyVal.int 7) := by
  refine ⟨rfl, ?_⟩
  intro h
  have h2 := Option.some.injEq .. ▸ h
  cases h2

/-! ### Claim C4 — row-level error handling -/

/-- Counterexample to C4 as frozen: resolving a row CAN raise an uncaught
exception.  A `FLOAT` field whose source text is `"nan"` parses to NaN, the
self-inequality guard of `parse_field_from_dict` (line 271-274) raises
`Exception("No NaNs or NaTs allowed(2)!...")`, and `do_basic_fields` catches
only `KeyError`, so the row — and with it the whole document run, which has
no enclosing handler — aborts. -/
theorem claim_C4_counterexample :
    parse_field_from_dict
        { config_type := some "FIELD", element := some "el", attr := some "value",
          data_type := some "FLOAT" }
        (.found (some "nan")) (fun _ => none) (fun _ => none)
        (fun s => if s = "nan" then .fnan else .err) = .error () ∧
    do_basic_fields
        [("value_as_number",
          { config_type := some "FIELD", element := some "el", attr := some "value",
            data_type := some "FLOAT" })]
        (fun _ => .found (some "nan")) (fun _ => none) (fun _ => none)
        (fun s => if s = "nan" then .fnan else .err) [] [] = .error () := by
  exact ⟨rfl, rfl⟩

theorem do_basic_fields_error_of_field_error (config : Config)
    (qOf : String → QueryRes) (dparse : DateParser) (iparse : String → Option Int)
    (fparse : String → FloatRes) (out : Rec) (pk : PkMap) (g : String) (gs : FieldSpec)
    (hmem : (g, gs) ∈ config)
    (hty : gs.config_type = some "FIELD" ∨ gs.config_type = some "PK")
    (herr : parse_field_from_dict gs (qOf g) dparse iparse fparse = .error ()) :
    do_basic_fields config qOf dparse iparse fparse out pk = .error () := by
  induction config generalizing out pk with
  | nil => cases hmem
  | cons hd tl ih =>
    obtain ⟨f, fs⟩ := hd
    rcases List.mem_cons.mp hmem with heq | htl
    · obtain ⟨rfl, rfl⟩ := Prod.mk.injEq .. ▸ heq
      rcases hty with hty | hty
      · simp only [do_basic_fields, hty, if_pos, herr]
      · have hne : (some "PK" : Option String) ≠ some "FIELD" := by decide
        simp only [do_basic_fields, hty, hne, if_neg, if_pos, herr]
        simp
    · by_cases h1 : fs.config_type = some "FIELD"
      · simp only [do_basic_fields, h1, if_pos]
        cases hp : parse_field_from_dict fs (qOf f) dparse iparse fparse with
        | ok v => exact ih _ _ htl
        | error e => rfl
      · by_cases h2 : fs.config_type = some "PK"
        · simp only [do_basic_fields, h1, h2, if_neg, if_pos]
          cases hp : parse_field_from_dict fs (qOf f) dparse iparse fparse with
          | ok v => exact ih _ _ htl
          | error e => rfl
        · simp only [do_basic_fields, h1, h2, if_neg, ite_false]
          exact ih _ _ htl

/-- C4 (amended): field-level failures of the basic/PK phase are handled
locally only in part.  A failed document query (xpath error, no element
match, absent attribute, or missing `element`/`attribute` key in the spec)
resolves the field to Null and never aborts — but adds nothing to the
ErrorFieldSet (`do_basic_fields` never touches it).  A failed
`LONG`/`INTEGER`/`FLOAT` text coercion leaves the raw string value in place,
not Null.  And a coerced NaN (a `FLOAT` field reading `"nan"`) raises an
exception that is not caught anywhere up the call chain, aborting row and
document processing — the corrected part of the claim. -/
theorem claim_C4_row_error_handling :
    (∀ (fs : FieldSpec) (q : QueryRes) (dparse : DateParser)
      (iparse : String → Option Int) (fparse : String → FloatRes),
      (q = .noMatch ∨ q = .xpathErr ∨ q = .found none ∨
        fs.element = none ∨ fs.attr = none) →
      parse_field_from_dict fs q dparse iparse fparse = .ok .pnone) ∧
    (∀ (fs : FieldSpec) (s el at_ : String) (dparse : DateParser)
      (iparse : String → Option Int) (fparse : String → FloatRes),
      fs.element = some el → fs.attr = some at_ → iparse s = none →
      (fs.data_type = some "LONG" →
        parse_field_from_dict fs (.found (some s)) dparse iparse fparse = .ok (.str s)) ∧
      (fs.data_type = some "INTEGER" →
        parse_field_from_dict fs (.found (some s)) dparse iparse fparse = .ok (.str s)) ∧
      (fs.data_type = some "FLOAT" → fparse s = .err →
        parse_field_from_dict fs (.found (some s)) dparse iparse fparse = .ok (.str s)) ∧
      (fs.data_type = some "FLOAT" → fparse s = .fnan →
        parse_field_from_dict fs (.found (some s)) dparse iparse fparse = .error ())) ∧
    (∀ (config : Config) (qOf : String → QueryRes) (dparse : DateParser)
      (iparse : String → Option Int) (fparse : String → FloatRes) (out : Rec)
      (pk : PkMap) (g : String) (gs : FieldSpec),
      (g, gs) ∈ config →
      (gs.config_type = some "FIELD" ∨ gs.config_type = some "PK") →
      parse_field_from_dict gs (qOf g) dparse iparse fparse = .error () →
      do_basic_fields config qOf dparse iparse fparse out pk = .error ()) := by
  refine ⟨?_, ?_, ?_⟩
  · intro fs q dparse iparse fparse hq
    cases hel : fs.element with
    | none => simp [parse_field_from_dict, hel]
    | some el =>
      rcases hq with rfl | rfl | rfl | h | hat
      · cases hat : fs.attr with
        | none => simp [parse_field_from_dict, hel, hat]
        | some a =>
          cases hdt : fs.data_type with
          | none => simp [parse_field_from_dict, hel, hat, hdt]
          | some dtp => simp [parse_field_from_dict, hel, hat, hdt]
      · simp [parse_field_from_dict, hel]
      · cases hat : fs.attr with
        | none => simp [parse_field_from_dict, hel, hat]
        | some a =>
          cases hdt : fs.data_type with
          | none => simp [parse_field_from_dict, hel, hat, hdt]
          | some dtp => simp [parse_field_from_dict, hel, hat, hdt]
      · rw [hel] at h; cases h
      · cases hq2 : q with
        | xpathErr => simp [parse_field_from_dict, hel]
        | noMatch => simp [parse_field_from_dict, hel, hat]
        | found v => simp [parse_field_from_dict, hel, hat]
  · intro fs s el at_ dparse iparse fparse hel hat hip
    refine ⟨?_, ?_, ?_, ?_⟩
    · intro hdt
      simp [parse_field_from_dict, hel, hat, hdt, hip]
    · intro hdt
      simp [parse_field_from_dict, hel, hat, hdt, hip]
    · intro hdt hfp
      simp [parse_field_from_dict, hel, hat, hdt, hfp]
    · intro hdt hfp
      simp [parse_field_from_dict, hel, hat, hdt, hfp]
  · exact fun config qOf d i f out pk g gs =>
      do_basic_fields_error_of_field_error config qOf d i f out pk g gs

/-- Witness for C4 (amended) at concrete inputs: an empty query gives Null, a
failed LONG parse keeps the raw text, and the NaN float aborts the row. -/
theorem claim_C4_row_error_handling_witness :
    parse_field_from_dict
        { config_type := some "FIELD", element := some "el", attr := some "value",
          data_type := some "LONG" }
        .noMatch (fun _ => none) (fun _ => none) (fun _ => .err) = .ok .pnone ∧
    parse_field_from_dict
        { config_type := some "FIELD", element := some "el", attr := some "value",
          data_type := some "LONG" }
        (.found (some "abc")) (fun _ => none) (fun _ => none) (fun _ => .err) =
      .ok (.str "abc") ∧
    do_basic_fields
        [("value_as_number",
          { config_type := some "FIELD", element := some "el", attr := some "value",
            data_type := some "FLOAT" })]
        (fun _ => .found (some "nan")) (fun _ => none) (fun _ => none)
        (fun _ => .fnan) [] [] = .error () := by
  refine ⟨?_, ?_, ?_⟩
  · exact claim_C4_row_error_handling.1 _ .noMatch (fun _ => none) (fun _ => none)
      (fun _ => .err) (Or.inl rfl)
  · exact ((claim_C4_row_error_handling.2.1 _ "abc" "el" "value" (fun _ => none)
      (fun _ => none) (fun _ => .err) rfl rfl rfl).1 rfl)
  · exact claim_C4_row_error_handling.2.2 _ _ (fun _ => none) (fun _ => none)
      (fun _ => .fnan) [] [] "value_as_number" _ (List.mem_cons_self _ _) (Or.inl rfl) rfl

/-! ### Claim C9 — Pass B visit_detail linkage -/

theorem vdMatches_mem (test : Rec → Option Bool) (tvoid : PyVal) (vds : List Rec)
    (ms : List Rec) (h : vdMatches test tvoid vds = some ms) :
    ∀ vd, vd ∈ ms ↔
      vd ∈ vds ∧ pyEqB (vd.get "visit_occurrence_id") tvoid = true ∧ test vd = some true := by
  induction vds generalizing ms with
  | nil =>
    obtain rfl := Option.some.injEq .. ▸ h
    intro vd
    simp
  | cons w ws ih =>
    intro vd
    simp only [vdMatches] at h
    by_cases hid : pyEqB (w.get "visit_occurrence_id") tvoid
    · rw [if_neg (by simp [hid])] at h
      cases ht : test w with
      | none => rw [ht] at h; cases h
      | some b =>
        rw [ht] at h
        cases b with
        | true =>
          simp only at h
          cases hrec : vdMatches test tvoid ws with
          | none => rw [hrec] at h; cases h
          | some ms0 =>
            rw [hrec] at h
            simp only [Option.map_some'] at h
            obtain rfl := Option.some.injEq .. ▸ h
            constructor
            · intro hm
              rcases List.mem_cons.mp hm with rfl | hm0
              · exact ⟨List.mem_cons_self _ _, hid, ht⟩
              · obtain ⟨h1, h2, h3⟩ := (ih ms0 hrec vd).mp hm0
                exact ⟨List.mem_cons_of_mem _ h1, h2, h3⟩
            · intro ⟨h1, h2, h3⟩
              rcases List.mem_cons.mp h1 with rfl | hm0
              · exact List.mem_cons_self _ _
              · exact List.mem_cons_of_mem _ ((ih ms0 hrec vd).mpr ⟨hm0, h2, h3⟩)
        | false =>
          simp only at h
          constructor
          · intro hm
            obtain ⟨h1, h2, h3⟩ := (ih ms h vd).mp hm
            exact ⟨List.mem_cons_of_mem _ h1, h2, h3⟩
          · intro ⟨h1, h2, h3⟩
            rcases List.mem_cons.mp h1 with rfl | hm0
            · rw [ht] at h3; cases Option.some.injEq .. ▸ h3
            · exact (ih ms h vd).mpr ⟨hm0, h2, h3⟩
    · rw [if_pos (by simp [hid])] at h
      constructor
      · intro hm
        obtain ⟨h1, h2, h3⟩ := (ih ms h vd).mp hm
        exact ⟨List.mem_cons_of_mem _ h1, h2, h3⟩
      · intro ⟨h1, h2, h3⟩
        rcases List.mem_cons.mp h1 with rfl | hm0
        · rw [h2] at hid; cases hid rfl
        · exact (ih ms h vd).mpr ⟨hm0, h2, h3⟩

theorem minDurGo_spec (l : List Rec) (best : Rec) (bd : ℚ)
    (hb : get_visit_detail_duration best = some bd) :
    ∀ res, minDurGo l best bd = some res →
      (res ∈ l ∨ res = best) ∧
      ∃ dr, get_visit_detail_duration res = some dr ∧ dr ≤ bd ∧
        ∀ q ∈ l, ∀ dq, get_visit_detail_duration q = some dq → dr ≤ dq := by
  induction l generalizing best bd with
  | nil =>
    intro res h
    obtain rfl := Option.some.injEq .. ▸ h
    exact ⟨Or.inr rfl, bd, hb, le_refl _, by intro q hq; cases hq⟩
  | cons w ws ih =>
    intro res h
    simp only [minDurGo] at h
    cases hw : get_visit_detail_duration w with
    | none => rw [hw] at h; cases h
    | some dw =>
      rw [hw] at h
      dsimp only at h
      by_cases hlt : dw < bd
      · rw [if_pos hlt] at h
        obtain ⟨hmem, dr, hdr, hle, hall⟩ := ih w dw hw res h
        refine ⟨?_, dr, hdr, by linarith, ?_⟩
        · rcases hmem with hm | rfl
          · exact Or.inl (List.mem_cons_of_mem _ hm)
          · exact Or.inl (List.mem_cons_self _ _)
        · intro q hq dq hdq
          rcases List.mem_cons.mp hq with rfl | hq0
          · rw [hw] at hdq
            obtain rfl := Option.some.injEq .. ▸ hdq
            exact hle
          · exact hall q hq0 dq hdq
      · rw [if_neg hlt] at h
        obtain ⟨hmem, dr, hdr, hle, hall⟩ := ih best bd hb res h
        refine ⟨?_, dr, hdr, hle, ?_⟩
        · rcases hmem with hm | rfl
          · exact Or.inl (List.mem_cons_of_mem _ hm)
          · exact Or.inr rfl
        · intro q hq dq hdq
          rcases List.mem_cons.mp hq with rfl | hq0
          · rw [hw] at hdq
            obtain rfl := Option.some.injEq .. ▸ hdq
            linarith [not_lt.mp hlt]
          · exact hall q hq0 dq hdq

theorem minByDuration_spec (l : List Rec) (m : Rec) (h : minByDuration l = some m) :
    m ∈ l ∧ ∃ dm, get_visit_detail_duration m = some dm ∧
      ∀ q ∈ l, ∀ dq, get_visit_detail_duration q = some dq → dm ≤ dq := by
  cases l with
  | nil => cases h
  | cons v rest =>
    simp only [minByDuration] at h
    cases hv : get_visit_detail_duration v with
    | none => rw [hv] at h; cases h
    | some d0 =>
      rw [hv] at h
      dsimp only at h
      obtain ⟨hmem, dm, hdm, hle, hall⟩ := minDurGo_spec rest v d0 hv m h
      refine ⟨?_, dm, hdm, ?_⟩
      · rcases hmem with hm | rfl
        · exact List.mem_cons_of_mem _ hm
        · exact List.mem_cons_self _ _
      · intro q hq dq hdq
        rcases List.mem_cons.mp hq with rfl | hq0
        · rw [hv] at hdq
          obtain rfl := Option.some.injEq .. ▸ hdq
          exact hle
        · exact hall q hq0 dq hdq

theorem applyMatchesB_spec (thing : Rec) (ms : List Rec) (thing' : Rec)
    (h : applyMatchesB thing ms = some thing') :
    (ms = [] → thing' = thing) ∧
    (∀ m, ms = [m] → ∃ vid, m.getK "visit_detail_id" = some vid ∧
      thing' = thing.set "visit_detail_id" vid) ∧
    (2 ≤ ms.length → ∃ m vid dm, minByDuration ms = some m ∧
      m.getK "visit_detail_id" = some vid ∧
      thing' = thing.set "visit_detail_id" vid ∧ m ∈ ms ∧
      get_visit_detail_duration m = some dm ∧
      ∀ q ∈ ms, ∀ dq, get_visit_detail_duration q = some dq → dm ≤ dq) := by
  refine ⟨?_, ?_, ?_⟩
  · intro hms
    rw [hms] at h
    exact (Option.some.injEq .. ▸ h).symm
  · intro m hms
    rw [hms] at h
    simp only [applyMatchesB] at h
    cases hk : m.getK "visit_detail_id" with
    | none => rw [hk] at h; cases h
    | some vid =>
      rw [hk] at h
      exact ⟨vid, rfl, (Option.some.injEq .. ▸ h).symm⟩
  · intro hlen
    cases hms : ms with
    | nil => rw [hms] at hlen; cases hlen
    | cons m1 rest =>
      cases hrest : rest with
      | nil => rw [hms, hrest] at hlen; simp at hlen
      | cons m2 rest2 =>
        rw [hms, hrest] at h
        simp only [applyMatchesB] at h
        cases hmin : minByDuration (m1 :: m2 :: rest2) with
        | none => rw [hmin] at h; cases h
        | some m =>
          rw [hmin] at h
          dsimp only at h
          cases hk : m.getK "visit_detail_id" with
          | none => rw [hk] at h; cases h
          | some vid =>
            rw [hk] at h
            obtain ⟨hmem, dm, hdm, hall⟩ := minByDuration_spec _ _ hmin
            dsimp only at h
            exact ⟨m, vid, dm, rfl, hk, (Option.some.injEq .. ▸ h).symm, hmem, hdm, hall⟩

/-- C9: in Pass B only events carrying a non-null `visit_occurrence_id` are
considered (others are returned unchanged); candidate VisitDetail rows are
exactly those sharing that `visit_occurrence_id` and temporally containing
the event's effective date(s); zero matches leave `visit_detail_id` unset
(record unchanged), one match assigns its `visit_detail_id`, several assign
the `visit_detail_id` of a smallest-duration match (the first such, Python's
`min`).  Stated for both the single-date and the start/end event shapes. -/
theorem claim_C9_passB_visit_detail :
    (∀ (dateF dtF : String) (vds : List Rec) (thing : Rec),
      (!(thing.mem "visit_occurrence_id") || isNone (thing.get "visit_occurrence_id")) =
        true →
      stepSingleB dateF dtF vds thing = some thing ∧
      ∀ (sdF sdtF edF edtF : String),
        stepIntervalB sdF sdtF edF edtF vds thing = some thing) ∧
    (∀ (test : Rec → Option Bool) (tvoid : PyVal) (vds ms : List Rec),
      vdMatches test tvoid vds = some ms →
      ∀ vd, vd ∈ ms ↔ vd ∈ vds ∧
        pyEqB (vd.get "visit_occurrence_id") tvoid = true ∧ test vd = some true) ∧
    (∀ (dateF dtF : String) (vds : List Rec) (thing thing' : Rec) (e : PyVal),
      thing.mem "visit_occurrence_id" = true →
      isNone (thing.get "visit_occurrence_id") = false →
      (match thing.getK dtF with
       | none => none
       | some dtv =>
          if !isNone dtv && isDatetime dtv then some (strip_tz dtv) else thing.getK dateF) =
        some e →
      isNone e = false →
      stepSingleB dateF dtF vds thing = some thing' →
      ∃ ms, vdMatches (vdWindowTestSingle e) (thing.get "visit_occurrence_id") vds =
          some ms ∧
        (ms = [] → thing' = thing) ∧
        (∀ m, ms = [m] → ∃ vid, m.getK "visit_detail_id" = some vid ∧
          thing' = thing.set "visit_detail_id" vid) ∧
        (2 ≤ ms.length → ∃ m vid dm, minByDuration ms = some m ∧
          m.getK "visit_detail_id" = some vid ∧
          thing' = thing.set "visit_detail_id" vid ∧ m ∈ ms ∧
          get_visit_detail_duration m = some dm ∧
          ∀ q ∈ ms, ∀ dq, get_visit_detail_duration q = some dq → dm ≤ dq)) ∧
    (∀ (sdF sdtF edF edtF : String) (vds : List Rec) (thing thing' : Rec) (s e : PyVal),
      thing.mem "visit_occurrence_id" = true →
      isNone (thing.get "visit_occurrence_id") = false →
      effStartLazy thing sdtF sdF = some s →
      effEndLazy thing edtF edF s = some e →
      isNone s = false → isNone e = false →
      stepIntervalB sdF sdtF edF edtF vds thing = some thing' →
      ∃ ms, vdMatches (vdWindowTestInterval s e) (thing.get "visit_occurrence_id") vds =
          some ms ∧
        (ms = [] → thing' = thing) ∧
        (∀ m, ms = [m] → ∃ vid, m.getK "visit_detail_id" = some vid ∧
          thing' = thing.set "visit_detail_id" vid) ∧
        (2 ≤ ms.length → ∃ m vid dm, minByDuration ms = some m ∧
          m.getK "visit_detail_id" = some vid ∧
          thing' = thing.set "visit_detail_id" vid ∧ m ∈ ms ∧
          get_visit_detail_duration m = some dm ∧
          ∀ q ∈ ms, ∀ dq, get_visit_detail_duration q = some dq → dm ≤ dq)) := by
  refine ⟨?_, vdMatches_mem, ?_, ?_⟩
  · intro dateF dtF vds thing hskip
    constructor
    · simp [stepSingleB, hskip]
    · intro sdF sdtF edF edtF
      simp [stepIntervalB, hskip]
  · intro dateF dtF vds thing thing' e hmem hnn heff hne hstep
    simp only [stepSingleB] at hstep
    rw [hmem, hnn] at hstep
    simp only [Bool.not_true, Bool.false_or, Bool.false_eq_true, if_false] at hstep
    cases hdtv : thing.getK dtF with
    | none => rw [hdtv] at heff; cases heff
    | some dtv =>
      rw [hdtv] at heff hstep
      dsimp only at heff hstep
      rw [heff] at hstep
      dsimp only at hstep
      rw [hne] at hstep
      simp only [Bool.false_eq_true, if_false] at hstep
      cases hms : vdMatches (vdWindowTestSingle e) (thing.get "visit_occurrence_id") vds with
      | none => rw [hms] at hstep; cases hstep
      | some ms =>
        rw [hms] at hstep
        obtain ⟨h1, h2, h3⟩ := applyMatchesB_spec thing ms thing' hstep
        exact ⟨ms, rfl, h1, h2, h3⟩
  · intro sdF sdtF edF edtF vds thing thing' s e hmem hnn hs he hnns hnne hstep
    simp only [stepIntervalB] at hstep
    rw [hmem, hnn] at hstep
    simp only [Bool.not_true, Bool.false_or, Bool.false_eq_true, if_false] at hstep
    rw [hs] at hstep
    dsimp only at hstep
    rw [he] at hstep
    dsimp only at hstep
    rw [hnns, hnne] at hstep
    simp only [Bool.false_eq_true, Bool.or_self, if_false] at hstep
    cases hms : vdMatches (vdWindowTestInterval s e) (thing.get "visit_occurrence_id")
        vds with
    | none => rw [hms] at hstep; cases hstep
    | some ms =>
      rw [hms] at hstep
      obtain ⟨h1, h2, h3⟩ := applyMatchesB_spec thing ms thing' hstep
      exact ⟨ms, rfl, h1, h2, h3⟩

/-- Witness for C9: a date-valued Measurement event inside two visit-detail
windows of the same visit; the smaller (4-day) detail 102 wins over the
20-day detail 101. -/
theorem claim_C9_passB_visit_detail_witness :
    stepSingleB "measurement_date" "measurement_datetime"
        [[("visit_occurrence_id", .int 1), ("visit_detail_id", .int 101),
          ("visit_detail_start_date", .date 0), ("visit_detail_end_date", .date 20),
          ("visit_detail_start_datetime", .pnone), ("visit_detail_end_datetime", .pnone)],
         [("visit_occurrence_id", .int 1), ("visit_detail_id", .int 102),
          ("visit_detail_start_date", .date 8), ("visit_detail_end_date", .date 12),
          ("visit_detail_start_datetime", .pnone), ("visit_detail_end_datetime", .pnone)]]
        [("visit_occurrence_id", .int 1), ("measurement_date", .date 10),
         ("measurement_datetime", .pnone)] =
      some (Rec.set
        [("visit_occurrence_id", .int 1), ("measurement_date", .date 10),
         ("measurement_datetime", .pnone)] "visit_detail_id" (.int 102)) ∧
    (∃ ms, vdMatches (vdWindowTestSingle (.date 10))
        (Rec.get [("visit_occurrence_id", .int 1), ("measurement_date", .date 10),
          ("measurement_datetime", .pnone)] "visit_occurrence_id")
        [[("visit_occurrence_id", .int 1), ("visit_detail_id", .int 101),
          ("visit_detail_start_date", .date 0), ("visit_detail_end_date", .date 20),
          ("visit_detail_start_datetime", .pnone), ("visit_detail_end_datetime", .pnone)],
         [("visit_occurrence_id", .int 1), ("visit_detail_id", .int 102),
          ("visit_detail_start_date", .date 8), ("visit_detail_end_date", .date 12),
          ("visit_detail_start_datetime", .pnone), ("visit_detail_end_datetime", .pnone)]] =
        some ms ∧
      (ms = [] → Rec.set
          [("visit_occurrence_id", .int 1), ("measurement_date", .date 10),
           ("measurement_datetime", .pnone)] "visit_detail_id" (.int 102) =
          [("visit_occurrence_id", .int 1), ("measurement_date", .date 10),
           ("measurement_datetime", .pnone)]) ∧
      (∀ m, ms = [m] → ∃ vid, m.getK "visit_detail_id" = some vid ∧
        Rec.set [("visit_occurrence_id", .int 1), ("measurement_date", .date 10),
            ("measurement_datetime", .pnone)] "visit_detail_id" (.int 102) =
          Rec.set [("visit_occurrence_id", .int 1), ("measurement_date", .date 10),
            ("measurement_datetime", .pnone)] "visit_detail_id" vid) ∧
      (2 ≤ ms.length → ∃ m vid dm, minByDuration ms = some m ∧
        m.getK "visit_detail_id" = some vid ∧
        Rec.set [("visit_occurrence_id", .int 1), ("measurement_date", .date 10),
            ("measurement_datetime", .pnone)] "visit_detail_id" (.int 102) =
          Rec.set [("visit_occurrence_id", .int 1), ("measurement_date", .date 10),
            ("measurement_datetime", .pnone)] "visit_detail_id" vid ∧ m ∈ ms ∧
        get_visit_detail_duration m = some dm ∧
        ∀ q ∈ ms, ∀ dq, get_visit_detail_duration q = some dq → dm ≤ dq)) := by
  constructor
  · rfl
  · exact claim_C9_passB_visit_detail.2.2.1 "measurement_date" "measurement_datetime"
      _ _ _ (.date 10) rfl rfl rfl rfl rfl

/-! ### Claim C1 — Pass A visit_occurrence linkage -/

theorem visitMatches_mem (test : Rec → Bool) (visits : List Rec) (m : PyVal) :
    m ∈ visitMatches test visits ↔
      ∃ v, v ∈ visits ∧ test v = true ∧ (v.getK "visit_occurrence_id").isSome = true ∧
        v.get "visit_occurrence_id" = m := by
  simp only [visitMatches, List.mem_map, List.mem_filter, Bool.and_eq_true]
  constructor
  · rintro ⟨v, ⟨hv, ht, hs⟩, hm⟩
    exact ⟨v, hv, ht, hs, hm⟩
  · rintro ⟨v, hv, ht, hs, hm⟩
    exact ⟨v, ⟨hv, ht, hs⟩, hm⟩

theorem effDateSingle_prefers_datetime (thing : Rec) (dateF dtF : String) (dv : PyVal)
    (n : Int) (tz : Option Int) (hd : thing.getK dateF = some dv)
    (hdt : thing.getK dtF = some (.dt n tz)) :
    effDateSingle thing dateF dtF = some (.dt n none) := by
  simp only [effDateSingle, hd, hdt]
  cases tz with
  | none => simp [isNone, isDatetime, strip_tz]
  | some z => simp [isNone, isDatetime, strip_tz]

theorem effDateSingle_falls_back (thing : Rec) (dateF dtF : String) (dv v : PyVal)
    (hd : thing.getK dateF = some dv) (hdt : thing.getK dtF = some v)
    (hv : (!isNone v && isDatetime v) = false) :
    effDateSingle thing dateF dtF = some dv := by
  simp only [effDateSingle, hd, hdt, hv]
  simp

theorem effStartLazy_prefers_datetime (thing : Rec) (sdtF sdF : String)
    (n : Int) (tz : Option Int) (hdt : thing.getK sdtF = some (.dt n tz)) :
    effStartLazy thing sdtF sdF = some (.dt n none) := by
  simp only [effStartLazy, hdt]
  cases tz with
  | none => simp [isNone, isDatetime, strip_tz]
  | some z => simp [isNone, isDatetime, strip_tz]

theorem effEndLazy_cases (thing : Rec) (edtF edF : String) (s : PyVal) :
    (∀ n tz, thing.getK edtF = some (.dt n tz) →
      effEndLazy thing edtF edF s = some (.dt n none)) ∧
    (∀ v ev, thing.getK edtF = some v → (!isNone v && isDatetime v) = false →
      thing.getK edF = some ev → isNone ev = false →
      effEndLazy thing edtF edF s = some ev) ∧
    (∀ v, thing.getK edtF = some v → (!isNone v && isDatetime v) = false →
      thing.getK edF = some .pnone →
      effEndLazy thing edtF edF s = some s) := by
  refine ⟨?_, ?_, ?_⟩
  · intro n tz hdt
    simp only [effEndLazy, hdt]
    cases tz with
    | none => simp [isNone, isDatetime, strip_tz]
    | some z => simp [isNone, isDatetime, strip_tz]
  · intro v ev hdt hv hed hne
    simp only [effEndLazy, hdt, hv, hed]
    simp only [Bool.false_eq_true, if_false]
    rw [hne]
    simp
  · intro v hdt hv hed
    simp only [effEndLazy, hdt, hv, hed]
    simp [isNone]

theorem applyMatchesA_spec (thing : Rec) (ms : List PyVal) :
    (∀ m, ms = [m] → applyMatchesA thing ms = thing.set "visit_occurrence_id" m) ∧
    (ms = [] → applyMatchesA thing ms = thing) ∧
    (2 ≤ ms.length → applyMatchesA thing ms = thing.set "__visit_candidates" (.list ms)) := by
  refine ⟨?_, ?_, ?_⟩
  · rintro m rfl; rfl
  · rintro rfl; rfl
  · intro hlen
    match ms, hlen with
    | m1 :: m2 :: r, _ => rfl

theorem stepSingleA_spec (dateF dtF : String) (visits : List Rec) (thing thing' : Rec)
    (d : PyVal) (heff : effDateSingle thing dateF dtF = some d) (hne : isNone d = false)
    (hstep : stepSingleA dateF dtF visits thing = some thing') :
    (∀ m, visitMatches (visitWindowTestSingle d) visits = [m] →
      thing' = thing.set "visit_occurrence_id" m) ∧
    (visitMatches (visitWindowTestSingle d) visits = [] → thing' = thing) ∧
    (2 ≤ (visitMatches (visitWindowTestSingle d) visits).length →
      thing' = thing.set "__visit_candidates"
        (.list (visitMatches (visitWindowTestSingle d) visits))) := by
  obtain ⟨h1, h2, h3⟩ := applyMatchesA_spec thing (visitMatches (visitWindowTestSingle d) visits)
  simp only [stepSingleA, heff] at hstep
  rw [hne] at hstep
  simp only [Bool.false_eq_true, if_false] at hstep
  refine ⟨?_, ?_, ?_⟩
  · intro m hm
    rw [h1 m hm] at hstep
    exact (Option.some.inj hstep).symm
  · intro hm
    rw [h2 hm] at hstep
    exact (Option.some.inj hstep).symm
  · intro hlen
    rw [h3 hlen] at hstep
    exact (Option.some.inj hstep).symm

theorem stepIntervalA_spec (sdF sdtF edF edtF : String) (visits : List Rec)
    (thing thing' : Rec) (s e : PyVal)
    (hs : effStartLazy thing sdtF sdF = some s)
    (he : effEndLazy thing edtF edF s = some e)
    (hnns : isNone s = false) (hnne : isNone e = false)
    (hstep : stepIntervalA sdF sdtF edF edtF visits thing = some thing') :
    (∀ m, visitMatches (visitWindowTestInterval s e) visits = [m] →
      thing' = thing.set "visit_occurrence_id" m) ∧
    (visitMatches (visitWindowTestInterval s e) visits = [] → thing' = thing) ∧
    (2 ≤ (visitMatches (visitWindowTestInterval s e) visits).length →
      thing' = thing.set "__visit_candidates"
        (.list (visitMatches (visitWindowTestInterval s e) visits))) := by
  obtain ⟨h1, h2, h3⟩ :=
    applyMatchesA_spec thing (visitMatches (visitWindowTestInterval s e) visits)
  simp only [stepIntervalA, hs, he] at hstep
  rw [hnns, hnne] at hstep
  simp only [Bool.or_self, Bool.false_eq_true, if_false] at hstep
  refine ⟨?_, ?_, ?_⟩
  · intro m hm
    rw [h1 m hm] at hstep
    exact (Option.some.inj hstep).symm
  · intro hm
    rw [h2 hm] at hstep
    exact (Option.some.inj hstep).symm
  · intro hlen
    rw [h3 hlen] at hstep
    exact (Option.some.inj hstep).symm

theorem passAloop2_preserves (cfgToDomain : List (String × String)) (data : OmopMap)
    (cfg : String) (h : cfg ∉ cfgToDomain.map Prod.fst) :
    OmopMap.getO (passAloop2 cfgToDomain data) cfg = OmopMap.getO data cfg := by
  induction cfgToDomain generalizing data with
  | nil => rfl
  | cons hd tl ih =>
    obtain ⟨c, d⟩ := hd
    have hcne : cfg ≠ c := fun hc => h (by simp [hc])
    have htl : cfg ∉ tl.map Prod.fst := fun hc => h (by simp [hc])
    simp only [passAloop2]
    cases hv : OmopMap.getO data c with
    | none => exact ih data htl
    | some vo =>
      cases vo with
      | none => exact ih data htl
      | some l =>
        dsimp only
        by_cases hg : (!l.isEmpty && decide (d ∈ sixDomains)) = true
        · rw [if_pos hg]
          rw [ih _ htl, OmopMap.getO_setO_ne _ _ _ _ hcne]
        · rw [if_neg hg]
          exact ih data htl

theorem passAloop2_at (cfgToDomain : List (String × String)) (data : OmopMap)
    (cfg dom : String) (hnd : (cfgToDomain.map Prod.fst).Nodup)
    (hmem : (cfg, dom) ∈ cfgToDomain) (hdom : dom ∈ sixDomains) :
    OmopMap.getO (passAloop2 cfgToDomain data) cfg =
      match OmopMap.getO data cfg with
      | some (some l) =>
        if l.isEmpty then some (some l)
        else some (some (l.map (fun r => Rec.del r "__visit_candidates")))
      | v => v := by
  induction cfgToDomain generalizing data with
  | nil => cases hmem
  | cons hd tl ih =>
    obtain ⟨c, d⟩ := hd
    rcases List.mem_cons.mp hmem with heq | htl
    · obtain ⟨rfl, rfl⟩ := Prod.mk.injEq .. ▸ heq
      have hnotin : cfg ∉ tl.map Prod.fst := by
        simp only [List.map, List.nodup_cons] at hnd
        exact hnd.1
      simp only [passAloop2]
      cases hv : OmopMap.getO data cfg with
      | none => rw [passAloop2_preserves _ _ _ hnotin, hv]
      | some vo =>
        cases vo with
        | none => rw [passAloop2_preserves _ _ _ hnotin, hv]
        | some l =>
          dsimp only
          cases hl : l.isEmpty with
          | true =>
            simp only [Bool.not_true, Bool.false_and, Bool.false_eq_true, if_false, if_true]
            rw [passAloop2_preserves _ _ _ hnotin, hv]
          | false =>
            simp only [Bool.not_false, Bool.true_and, Bool.false_eq_true, if_false,
              decide_eq_true_eq]
            rw [if_pos hdom]
            rw [passAloop2_preserves _ _ _ hnotin, OmopMap.getO_setO_self]
    · have hnd' : (tl.map Prod.fst).Nodup := by
        simp only [List.map, List.nodup_cons] at hnd
        exact hnd.2
      have hcne : cfg ≠ c := by
        intro hc
        simp only [List.map, List.nodup_cons] at hnd
        exact hnd.1 (hc ▸ (List.mem_map_of_mem Prod.fst htl))
      simp only [passAloop2]
      cases hv : OmopMap.getO data c with
      | none => exact ih data hnd' htl
      | some vo =>
        cases vo with
        | none => exact ih data hnd' htl
        | some l =>
          dsimp only
          by_cases hg : (!l.isEmpty && decide (d ∈ sixDomains)) = true
          · rw [if_pos hg]
            rw [ih _ hnd' htl, OmopMap.getO_setO_ne _ _ _ _ hcne]
          · rw [if_neg hg]
            exact ih data hnd' htl

theorem assign_final_no_candidates (cfgToDomain : List (String × String))
    (data data' : OmopMap) (cfg dom : String) (l' : List Rec)
    (hnd : (cfgToDomain.map Prod.fst).Nodup) (hmem : (cfg, dom) ∈ cfgToDomain)
    (hdom : dom ∈ sixDomains)
    (hassign : assign_visit_occurrence_ids_to_events cfgToDomain data = some data')
    (hget : OmopMap.getO data' cfg = some (some l')) :
    ∀ r ∈ l', r.getK "__visit_candidates" = none := by
  simp only [assign_visit_occurrence_ids_to_events] at hassign
  cases h1 : passAloop1 cfgToDomain data with
  | none => rw [h1] at hassign; cases hassign
  | some d1 =>
    rw [h1] at hassign
    simp only [Option.map_some'] at hassign
    obtain rfl := (Option.some.injEq .. ▸ hassign)
    rw [passAloop2_at cfgToDomain d1 cfg dom hnd hmem hdom] at hget
    cases hv : OmopMap.getO d1 cfg with
    | none => rw [hv] at hget; cases hget
    | some vo =>
      cases vo with
      | none => rw [hv] at hget; cases hget
      | some l =>
        rw [hv] at hget
        dsimp only at hget
        cases hl : l.isEmpty with
        | true =>
          rw [hl] at hget
          simp only [if_true] at hget
          obtain rfl := Option.some.injEq .. ▸ (Option.some.injEq .. ▸ hget)
          have : l = [] := List.isEmpty_iff.mp hl
          rw [this]
          intro r hr
          cases hr
        | false =>
          rw [hl] at hget
          simp only [Bool.false_eq_true, if_false] at hget
          obtain rfl := Option.some.injEq .. ▸ (Option.some.injEq .. ▸ hget)
          intro r hr
          obtain ⟨r0, _, rfl⟩ := List.mem_map.mp hr
          exact Rec.getK_del_self r0 "__visit_candidates"

/-- C1: in Pass A, for a clinical record missing its visit id the effective
date prefers the (timezone-stripped) datetime field over the date field (for
interval domains both effective start and end are computed the same way, the
missing end falling back to the start); the candidate set is exactly the
visits whose inclusive window contains the effective date (both ends for
interval domains, via `visitWindowTestInterval`); exactly one candidate
assigns `visit_occurrence_id`, zero leave it unset, several leave it unset
and store the candidate list only in the transient `__visit_candidates` key,
which the second loop of `assign_visit_occurrence_ids_to_events` deletes
before the records are final (`finalA` per record; the last conjunct shows
the finalised lists carry no such key). -/
theorem claim_C1_passA_visit_linkage :
    (∀ (thing : Rec) (dateF dtF : String) (dv : PyVal) (n : Int) (tz : Option Int),
      thing.getK dateF = some dv → thing.getK dtF = some (.dt n tz) →
      effDateSingle thing dateF dtF = some (.dt n none)) ∧
    (∀ (test : Rec → Bool) (visits : List Rec) (m : PyVal),
      m ∈ visitMatches test visits ↔
        ∃ v, v ∈ visits ∧ test v = true ∧ (v.getK "visit_occurrence_id").isSome = true ∧
          v.get "visit_occurrence_id" = m) ∧
    (∀ (dateF dtF : String) (visits : List Rec) (thing thing' : Rec) (d : PyVal),
      (thing.getK "visit_occurrence_id" = none ∨
        thing.getK "visit_occurrence_id" = some .pnone) →
      effDateSingle thing dateF dtF = some d → isNone d = false →
      stepSingleA dateF dtF visits thing = some thing' →
      (∀ m, visitMatches (visitWindowTestSingle d) visits = [m] →
        (finalA thing').getK "visit_occurrence_id" = some m) ∧
      (visitMatches (visitWindowTestSingle d) visits = [] →
        (finalA thing').getK "visit_occurrence_id" = none ∨
        (finalA thing').getK "visit_occurrence_id" = some .pnone) ∧
      (2 ≤ (visitMatches (visitWindowTestSingle d) visits).length →
        ((finalA thing').getK "visit_occurrence_id" = none ∨
         (finalA thing').getK "visit_occurrence_id" = some .pnone) ∧
        (finalA thing').getK "__visit_candidates" = none)) ∧
    (∀ (sdF sdtF edF edtF : String) (visits : List Rec) (thing thing' : Rec)
      (s e : PyVal),
      (thing.getK "visit_occurrence_id" = none ∨
        thing.getK "visit_occurrence_id" = some .pnone) →
      effStartLazy thing sdtF sdF = some s → effEndLazy thing edtF edF s = some e →
      isNone s = false → isNone e = false →
      stepIntervalA sdF sdtF edF edtF visits thing = some thing' →
      (∀ m, visitMatches (visitWindowTestInterval s e) visits = [m] →
        (finalA thing').getK "visit_occurrence_id" = some m) ∧
      (visitMatches (visitWindowTestInterval s e) visits = [] →
        (finalA thing').getK "visit_occurrence_id" = none ∨
        (finalA thing').getK "visit_occurrence_id" = some .pnone) ∧
      (2 ≤ (visitMatches (visitWindowTestInterval s e) visits).length →
        ((finalA thing').getK "visit_occurrence_id" = none ∨
         (finalA thing').getK "visit_occurrence_id" = some .pnone) ∧
        (finalA thing').getK "__visit_candidates" = none)) ∧
    (∀ (cfgToDomain : List (String × String)) (data data' : OmopMap)
      (cfg dom : String) (l' : List Rec),
      (cfgToDomain.map Prod.fst).Nodup → (cfg, dom) ∈ cfgToDomain →
      dom ∈ sixDomains →
      assign_visit_occurrence_ids_to_events cfgToDomain data = some data' →
      OmopMap.getO data' cfg = some (some l') →
      ∀ r ∈ l', r.getK "__visit_candidates" = none) := by
  have hvoid : ("visit_occurrence_id" : String) ≠ "__visit_candidates" := by decide
  have hcandodd : ∀ (thing : Rec),
      (thing.getK "visit_occurrence_id" = none ∨
        thing.getK "visit_occurrence_id" = some .pnone) →
      (finalA thing).getK "visit_occurrence_id" = none ∨
      (finalA thing).getK "visit_occurrence_id" = some .pnone := by
    intro thing hmiss
    rw [finalA, Rec.getK_del_ne _ _ _ hvoid]
    exact hmiss
  refine ⟨effDateSingle_prefers_datetime, visitMatches_mem, ?_, ?_, assign_final_no_candidates⟩
  · intro dateF dtF visits thing thing' d hmiss heff hne hstep
    obtain ⟨h1, h2, h3⟩ := stepSingleA_spec dateF dtF visits thing thing' d heff hne hstep
    refine ⟨?_, ?_, ?_⟩
    · intro m hm
      rw [h1 m hm, finalA, Rec.getK_del_ne _ _ _ hvoid, Rec.getK_set_self]
    · intro hm
      rw [h2 hm]
      exact hcandodd thing hmiss
    · intro hlen
      rw [h3 hlen]
      constructor
      · rw [finalA, Rec.getK_del_ne _ _ _ hvoid,
          Rec.getK_set_ne _ _ _ _ hvoid]
        exact hmiss
      · rw [finalA, Rec.getK_del_self]
  · intro sdF sdtF edF edtF visits thing thing' s e hmiss hs he hnns hnne hstep
    obtain ⟨h1, h2, h3⟩ :=
      stepIntervalA_spec sdF sdtF edF edtF visits thing thing' s e hs he hnns hnne hstep
    refine ⟨?_, ?_, ?_⟩
    · intro m hm
      rw [h1 m hm, finalA, Rec.getK_del_ne _ _ _ hvoid, Rec.getK_set_self]
    · intro hm
      rw [h2 hm]
      exact hcandodd thing hmiss
    · intro hlen
      rw [h3 hlen]
      constructor
      · rw [finalA, Rec.getK_del_ne _ _ _ hvoid,
          Rec.getK_set_ne _ _ _ _ hvoid]
        exact hmiss
      · rw [finalA, Rec.getK_del_self]

/-- Concrete C1 run: a Measurement event dated day 10 with a null
`visit_occurrence_id`, against a single visit spanning days 0–20 with id 7,
gets visit id 7 and, through the full `assign_visit_occurrence_ids_to_events`,
ends with no `__visit_candidates` key. -/
theorem claim_C1_passA_visit_linkage_witness :
    Rec.getK (finalA (Rec.set
        [("visit_occurrence_id", PyVal.pnone), ("measurement_date", PyVal.date 10),
         ("measurement_datetime", PyVal.pnone)] "visit_occurrence_id" (.int 7)))
      "visit_occurrence_id" = some (.int 7) ∧
    (∀ r ∈ [[("visit_occurrence_id", PyVal.int 7), ("measurement_date", PyVal.date 10),
         ("measurement_datetime", PyVal.pnone)]],
      Rec.getK r "__visit_candidates" = none) := by
  have h := claim_C1_passA_visit_linkage
  refine ⟨?_, ?_⟩
  · exact (h.2.2.1 "measurement_date" "measurement_datetime"
      [[("visit_start_date", PyVal.date 0), ("visit_start_datetime", PyVal.pnone),
        ("visit_end_date", PyVal.date 20), ("visit_end_datetime", PyVal.pnone),
        ("visit_occurrence_id", PyVal.int 7)]]
      [("visit_occurrence_id", PyVal.pnone), ("measurement_date", PyVal.date 10),
       ("measurement_datetime", PyVal.pnone)]
      (Rec.set [("visit_occurrence_id", PyVal.pnone), ("measurement_date", PyVal.date 10),
       ("measurement_datetime", PyVal.pnone)] "visit_occurrence_id" (.int 7))
      (.date 10) (Or.inr rfl) rfl rfl rfl).1 (.int 7) rfl
  · exact h.2.2.2.2 [("Measurement_results", "Measurement")]
      [("Measurement_results", some [[("visit_occurrence_id", PyVal.pnone),
          ("measurement_date", PyVal.date 10), ("measurement_datetime", PyVal.pnone)]]),
       ("Visit", some [[("visit_start_date", PyVal.date 0),
          ("visit_start_datetime", PyVal.pnone), ("visit_end_date", PyVal.date 20),
          ("visit_end_datetime", PyVal.pnone), ("visit_occurrence_id", PyVal.int 7)]])]
      [("Measurement_results", some [[("visit_occurrence_id", PyVal.int 7),
          ("measurement_date", PyVal.date 10), ("measurement_datetime", PyVal.pnone)]]),
       ("Visit", some [[("visit_start_date", PyVal.date 0),
          ("visit_start_datetime", PyVal.pnone), ("visit_end_date", PyVal.date 20),
          ("visit_end_datetime", PyVal.pnone), ("visit_occurrence_id", PyVal.int 7)]])]
      "Measurement_results" "Measurement"
      [[("visit_occurrence_id", PyVal.int 7), ("measurement_date", PyVal.date 10),
        ("measurement_datetime", PyVal.pnone)]]
      (by decide) (List.mem_cons_self _ _) (by decide) rfl rfl

/-! ### Claim C2 — most-specific-parent selection -/

theorem containingParents_mem (child : Rec) (cp cv : PyVal) :
    ∀ (pps l : List Rec), containingParents child cp cv pps = some l →
      ∀ p, p ∈ l ↔ p ∈ pps ∧
        (pyEqB (Rec.get p "person_id") cp && !pyEqB (Rec.get p "visit_occurrence_id") cv) = true ∧
        is_temporally_contained child p = some true := by
  intro pps
  induction pps with
  | nil =>
    intro l hl p
    cases hl
    simp
  | cons q rest ih =>
    intro l hl p
    simp only [containingParents] at hl
    by_cases hg : (pyEqB (Rec.get q "person_id") cp &&
        !pyEqB (Rec.get q "visit_occurrence_id") cv) = true
    · rw [if_pos hg] at hl
      cases hitc : is_temporally_contained child q with
      | none => rw [hitc] at hl; cases hl
      | some b =>
        rw [hitc] at hl
        cases b with
        | true =>
          dsimp only at hl
          cases hrec : containingParents child cp cv rest with
          | none => rw [hrec] at hl; cases hl
          | some l0 =>
            rw [hrec] at hl
            simp only [Option.map_some'] at hl
            obtain rfl := (Option.some.inj hl).symm
            have hiff := ih l0 hrec p
            constructor
            · intro hp
              rcases List.mem_cons.mp hp with rfl | hp0
              · exact ⟨List.mem_cons_self _ _, hg, hitc⟩
              · obtain ⟨h1, h2, h3⟩ := hiff.mp hp0
                exact ⟨List.mem_cons_of_mem _ h1, h2, h3⟩
            · rintro ⟨h1, h2, h3⟩
              rcases List.mem_cons.mp h1 with rfl | h1'
              · exact List.mem_cons_self _ _
              · exact List.mem_cons_of_mem _ (hiff.mpr ⟨h1', h2, h3⟩)
        | false =>
          dsimp only at hl
          have hiff := ih l hl p
          constructor
          · intro hp
            obtain ⟨h1, h2, h3⟩ := hiff.mp hp
            exact ⟨List.mem_cons_of_mem _ h1, h2, h3⟩
          · rintro ⟨h1, h2, h3⟩
            rcases List.mem_cons.mp h1 with rfl | h1'
            · rw [hitc] at h3; cases h3
            · exact hiff.mpr ⟨h1', h2, h3⟩
    · rw [if_neg hg] at hl
      have hiff := ih l hl p
      constructor
      · intro hp
        obtain ⟨h1, h2, h3⟩ := hiff.mp hp
        exact ⟨List.mem_cons_of_mem _ h1, h2, h3⟩
      · rintro ⟨h1, h2, h3⟩
        rcases List.mem_cons.mp h1 with rfl | h1'
        · exact absurd h2 hg
        · exact hiff.mpr ⟨h1', h2, h3⟩

theorem siblingScanOne_true (p : Rec) :
    ∀ l, siblingScanOne p l = some true →
      ∃ q ∈ l, is_temporally_contained q p = some false ∧
        is_temporally_contained p q = some false := by
  intro l
  induction l with
  | nil => intro h; cases h
  | cons q rest ih =>
    intro h
    simp only [siblingScanOne] at h
    cases h1 : is_temporally_contained q p with
    | none => rw [h1] at h; cases h
    | some icj =>
      rw [h1] at h
      dsimp only at h
      cases h2 : is_temporally_contained p q with
      | none => rw [h2] at h; cases h
      | some jci =>
        rw [h2] at h
        dsimp only at h
        by_cases hb : (!icj && !jci) = true
        · have hi' : icj = false := by
            cases icj <;> simp_all
          have hj' : jci = false := by
            cases jci <;> simp_all
          refine ⟨q, List.mem_cons_self _ _, ?_, ?_⟩
          · rw [h1, hi']
          · rw [h2, hj']
        · rw [if_neg hb] at h
          obtain ⟨q', hq', ha, hb'⟩ := ih h
          exact ⟨q', List.mem_cons_of_mem _ hq', ha, hb'⟩

theorem siblingScanOne_false (p : Rec) :
    ∀ l, siblingScanOne p l = some false →
      ∀ q ∈ l, ∃ icj jci, is_temporally_contained q p = some icj ∧
        is_temporally_contained p q = some jci ∧ (icj || jci) = true := by
  intro l
  induction l with
  | nil => intro _ q hq; cases hq
  | cons q0 rest ih =>
    intro h q hq
    simp only [siblingScanOne] at h
    cases h1 : is_temporally_contained q0 p with
    | none => rw [h1] at h; cases h
    | some icj =>
      rw [h1] at h
      dsimp only at h
      cases h2 : is_temporally_contained p q0 with
      | none => rw [h2] at h; cases h
      | some jci =>
        rw [h2] at h
        dsimp only at h
        by_cases hb : (!icj && !jci) = true
        · rw [if_pos hb] at h
          cases h
        · rw [if_neg hb] at h
          rcases List.mem_cons.mp hq with rfl | hq'
          · refine ⟨icj, jci, h1, h2, ?_⟩
            cases icj <;> cases jci <;> simp_all
          · exact ih h q hq'

theorem siblingScan_true :
    ∀ l, siblingScan l = some true →
      ∃ p q, List.Sublist [p, q] l ∧ is_temporally_contained q p = some false ∧
        is_temporally_contained p q = some false := by
  intro l
  induction l with
  | nil => intro h; cases h
  | cons p rest ih =>
    intro h
    simp only [siblingScan] at h
    cases h1 : siblingScanOne p rest with
    | none => rw [h1] at h; cases h
    | some b =>
      rw [h1] at h
      cases b with
      | true =>
        obtain ⟨q, hq, hqp, hpq⟩ := siblingScanOne_true p rest h1
        exact ⟨p, q, List.Sublist.cons₂ p (List.singleton_sublist.mpr hq), hqp, hpq⟩
      | false =>
        dsimp only at h
        obtain ⟨p', q', hsub, ha, hb⟩ := ih h
        exact ⟨p', q', List.Sublist.cons p hsub, ha, hb⟩

theorem siblingScan_false_chain :
    ∀ l, siblingScan l = some false →
      List.Pairwise (fun p q => ∃ icj jci, is_temporally_contained q p = some icj ∧
        is_temporally_contained p q = some jci ∧ (icj || jci) = true) l := by
  intro l
  induction l with
  | nil => intro _; exact List.Pairwise.nil
  | cons p rest ih =>
    intro h
    simp only [siblingScan] at h
    cases h1 : siblingScanOne p rest with
    | none => rw [h1] at h; cases h
    | some b =>
      rw [h1] at h
      cases b with
      | true => cases h
      | false =>
        dsimp only at h
        exact List.Pairwise.cons (siblingScanOne_false p rest h1) (ih h)

theorem minDurLoop_sound :
    ∀ (l : List Rec) (mv : ℚ) (bp : Rec) (res : Option Rec),
      get_visit_duration_days bp = some (some mv) →
      minDurLoop l (some mv) (some bp) = some res →
      ∃ r, res = some r ∧ (r = bp ∨ r ∈ l) ∧
        ∃ d, get_visit_duration_days r = some (some d) ∧ d ≤ mv ∧
          ∀ q ∈ l, ∀ dq, get_visit_duration_days q = some (some dq) → d ≤ dq := by
  intro l
  induction l with
  | nil =>
    intro mv bp res hbp hrun
    cases hrun
    exact ⟨bp, rfl, Or.inl rfl, mv, hbp, le_refl _, fun q hq => absurd hq (List.not_mem_nil _)⟩
  | cons p rest ih =>
    intro mv bp res hbp hrun
    simp only [minDurLoop] at hrun
    cases hp : get_visit_duration_days p with
    | none => rw [hp] at hrun; cases hrun
    | some dpo =>
      rw [hp] at hrun
      cases dpo with
      | none =>
        dsimp only at hrun
        obtain ⟨r, hres, hrloc, d, hd, hle, hall⟩ := ih mv bp res hbp hrun
        refine ⟨r, hres, ?_, d, hd, hle, ?_⟩
        · rcases hrloc with h | h
          · exact Or.inl h
          · exact Or.inr (List.mem_cons_of_mem _ h)
        · intro q hq dq hdq
          rcases List.mem_cons.mp hq with rfl | hq'
          · rw [hp] at hdq; cases hdq
          · exact hall q hq' dq hdq
      | some dp =>
        dsimp only at hrun
        by_cases hlt : dp < mv
        · rw [if_pos hlt] at hrun
          obtain ⟨r, hres, hrloc, d, hd, hle, hall⟩ := ih dp p res hp hrun
          refine ⟨r, hres, ?_, d, hd, le_trans hle (le_of_lt hlt), ?_⟩
          · rcases hrloc with h | h
            · exact Or.inr (h ▸ List.mem_cons_self _ _)
            · exact Or.inr (List.mem_cons_of_mem _ h)
          · intro q hq dq hdq
            rcases List.mem_cons.mp hq with rfl | hq'
            · rw [hp] at hdq
              obtain rfl := Option.some.inj (Option.some.inj hdq)
              exact hle
            · exact hall q hq' dq hdq
        · rw [if_neg hlt] at hrun
          obtain ⟨r, hres, hrloc, d, hd, hle, hall⟩ := ih mv bp res hbp hrun
          refine ⟨r, hres, ?_, d, hd, hle, ?_⟩
          · rcases hrloc with h | h
            · exact Or.inl h
            · exact Or.inr (List.mem_cons_of_mem _ h)
          · intro q hq dq hdq
            rcases List.mem_cons.mp hq with rfl | hq'
            · rw [hp] at hdq
              obtain rfl := Option.some.inj (Option.some.inj hdq)
              exact le_trans hle (le_of_not_lt hlt)
            · exact hall q hq' dq hdq

theorem minDurLoop_start :
    ∀ (l : List Rec) (res : Option Rec), minDurLoop l none none = some res →
      (res = none ∧ ∀ q ∈ l, get_visit_duration_days q = some none) ∨
      (∃ r, res = some r ∧ r ∈ l ∧
        ∃ d, get_visit_duration_days r = some (some d) ∧
          ∀ q ∈ l, ∀ dq, get_visit_duration_days q = some (some dq) → d ≤ dq) := by
  intro l
  induction l with
  | nil =>
    intro res hrun
    cases hrun
    exact Or.inl ⟨rfl, fun q hq => absurd hq (List.not_mem_nil _)⟩
  | cons p rest ih =>
    intro res hrun
    simp only [minDurLoop] at hrun
    cases hp : get_visit_duration_days p with
    | none => rw [hp] at hrun; cases hrun
    | some dpo =>
      rw [hp] at hrun
      cases dpo with
      | none =>
        dsimp only at hrun
        rcases ih res hrun with ⟨hres, hall⟩ | ⟨r, hres, hmem, d, hd, hall⟩
        · refine Or.inl ⟨hres, ?_⟩
          intro q hq
          rcases List.mem_cons.mp hq with rfl | hq'
          · exact hp
          · exact hall q hq'
        · refine Or.inr ⟨r, hres, List.mem_cons_of_mem _ hmem, d, hd, ?_⟩
          intro q hq dq hdq
          rcases List.mem_cons.mp hq with rfl | hq'
          · rw [hp] at hdq; cases hdq
          · exact hall q hq' dq hdq
      | some dp =>
        dsimp only at hrun
        obtain ⟨r, hres, hrloc, d, hd, hle, hall⟩ := minDurLoop_sound rest dp p res hp hrun
        refine Or.inr ⟨r, hres, ?_, d, hd, ?_⟩
        · rcases hrloc with h | h
          · exact h ▸ List.mem_cons_self _ _
          · exact List.mem_cons_of_mem _ h
        · intro q hq dq hdq
          rcases List.mem_cons.mp hq with rfl | hq'
          · rw [hp] at hdq
            obtain rfl := Option.some.inj (Option.some.inj hdq)
            exact hle
          · exact hall q hq' dq hdq

/-- C2: most-specific-parent selection.  (1) The containing-parent filter of
`find_most_specific_parent` keeps exactly the candidates with the child's
`person_id`, a different `visit_occurrence_id`, and temporal containment of
the child; (2) an empty containing set yields `None`; (3) when two containing
parents do not contain each other (a sibling pair, found by `siblingScan`),
the result is `None` — no parent is assigned — and such a pair really exists
in the containing list; (4) when the scan finds no sibling pair, every
ordered pair of containing parents has one containing the other (a
containment chain); (5) in that case the chosen parent is the minimum-loop
result: a containing parent whose defined duration is least among all
containing parents with defined durations, and its `visit_occurrence_id` is
returned. -/
theorem claim_C2_most_specific_parent :
    (∀ (child : Rec) (cp cv : PyVal) (pps l : List Rec),
      containingParents child cp cv pps = some l →
      ∀ p, p ∈ l ↔ p ∈ pps ∧
        (pyEqB (Rec.get p "person_id") cp &&
          !pyEqB (Rec.get p "visit_occurrence_id") cv) = true ∧
        is_temporally_contained child p = some true) ∧
    (∀ (child : Rec) (pps : List Rec),
      List.isEmpty pps = false →
      containingParents child (Rec.get child "person_id")
        (Rec.get child "visit_occurrence_id") pps = some [] →
      find_most_specific_parent child pps = some .pnone) ∧
    (∀ (child : Rec) (pps containing : List Rec),
      List.isEmpty pps = false →
      containingParents child (Rec.get child "person_id")
        (Rec.get child "visit_occurrence_id") pps = some containing →
      1 < containing.length →
      siblingScan containing = some true →
      find_most_specific_parent child pps = some .pnone ∧
      ∃ p q, List.Sublist [p, q] containing ∧
        is_temporally_contained q p = some false ∧
        is_temporally_contained p q = some false) ∧
    (∀ containing : List Rec, siblingScan containing = some false →
      List.Pairwise (fun p q => ∃ icj jci, is_temporally_contained q p = some icj ∧
        is_temporally_contained p q = some jci ∧ (icj || jci) = true) containing) ∧
    (∀ (child : Rec) (pps containing : List Rec) (p : Rec),
      List.isEmpty pps = false →
      containingParents child (Rec.get child "person_id")
        (Rec.get child "visit_occurrence_id") pps = some containing →
      siblingScan containing = some false →
      minDurLoop containing none none = some (some p) →
      List.isEmpty p = false →
      find_most_specific_parent child pps = some (Rec.get p "visit_occurrence_id") ∧
      p ∈ containing ∧
      ∃ d, get_visit_duration_days p = some (some d) ∧
        ∀ q ∈ containing, ∀ dq, get_visit_duration_days q = some (some dq) → d ≤ dq) := by
  refine ⟨containingParents_mem, ?_, ?_, siblingScan_false_chain, ?_⟩
  · intro child pps hne hc
    simp only [find_most_specific_parent]
    rw [hne]
    simp only [Bool.false_eq_true, if_false]
    rw [hc]
    dsimp only
    simp
  · intro child pps containing hne hc hlen hscan
    have hce : List.isEmpty containing = false := by
      cases containing with
      | nil => cases hlen
      | cons a t => rfl
    constructor
    · simp only [find_most_specific_parent]
      rw [hne]
      simp only [Bool.false_eq_true, if_false]
      rw [hc]
      dsimp only
      rw [hce]
      simp only [Bool.false_eq_true, if_false]
      rw [if_pos hlen, hscan]
    · exact siblingScan_true containing hscan
  · intro child pps containing p hne hc hscan hmin hpne
    rcases minDurLoop_start containing (some p) hmin with ⟨habs, _⟩ | ⟨r, hres, hmem, d, hd, hall⟩
    · exact Option.noConfusion habs
    · obtain rfl := Option.some.inj hres
      have hce : List.isEmpty containing = false := by
        cases containing with
        | nil => cases hmem
        | cons a t => rfl
      refine ⟨?_, hmem, d, hd, hall⟩
      simp only [find_most_specific_parent]
      rw [hne]
      simp only [Bool.false_eq_true, if_false]
      rw [hc]
      dsimp only
      rw [hce]
      simp only [Bool.false_eq_true, if_false]
      have hif : (if containing.length > 1 then siblingScan containing else some false)
          = some false := by
        by_cases hlen : containing.length > 1
        · rw [if_pos hlen]; exact hscan
        · rw [if_neg hlen]
      rw [hif]
      dsimp only
      rw [hmin]
      dsimp only
      rw [hpne]
      rfl

/-- Concrete C2 run: a child visit (person 1, id 100, days 5–6) with two
nested containing parents — id 200 spanning days 0–30 and id 300 spanning
days 4–10 — gets the shorter parent, id 300. -/
theorem claim_C2_most_specific_parent_witness :
    find_most_specific_parent
      [("person_id", PyVal.int 1), ("visit_occurrence_id", PyVal.int 100),
       ("visit_start_date", PyVal.date 5), ("visit_end_date", PyVal.date 6)]
      [[("person_id", PyVal.int 1), ("visit_occurrence_id", PyVal.int 200),
        ("visit_start_date", PyVal.date 0), ("visit_end_date", PyVal.date 30)],
       [("person_id", PyVal.int 1), ("visit_occurrence_id", PyVal.int 300),
        ("visit_start_date", PyVal.date 4), ("visit_end_date", PyVal.date 10)]] =
      some (Rec.get [("person_id", PyVal.int 1), ("visit_occurrence_id", PyVal.int 300),
        ("visit_start_date", PyVal.date 4), ("visit_end_date", PyVal.date 10)]
        "visit_occurrence_id") ∧
    [("person_id", PyVal.int 1), ("visit_occurrence_id", PyVal.int 300),
     ("visit_start_date", PyVal.date 4), ("visit_end_date", PyVal.date 10)] ∈
      [[("person_id", PyVal.int 1), ("visit_occurrence_id", PyVal.int 200),
        ("visit_start_date", PyVal.date 0), ("visit_end_date", PyVal.date 30)],
       [("person_id", PyVal.int 1), ("visit_occurrence_id", PyVal.int 300),
        ("visit_start_date", PyVal.date 4), ("visit_end_date", PyVal.date 10)]] ∧
    ∃ d, get_visit_duration_days
        [("person_id", PyVal.int 1), ("visit_occurrence_id", PyVal.int 300),
         ("visit_start_date", PyVal.date 4), ("visit_end_date", PyVal.date 10)] =
        some (some d) ∧
      ∀ q ∈ [[("person_id", PyVal.int 1), ("visit_occurrence_id", PyVal.int 200),
          ("visit_start_date", PyVal.date 0), ("visit_end_date", PyVal.date 30)],
         [("person_id", PyVal.int 1), ("visit_occurrence_id", PyVal.int 300),
          ("visit_start_date", PyVal.date 4), ("visit_end_date", PyVal.date 10)]],
        ∀ dq, get_visit_duration_days q = some (some dq) → d ≤ dq :=
  claim_C2_most_specific_parent.2.2.2.2
    [("person_id", PyVal.int 1), ("visit_occurrence_id", PyVal.int 100),
     ("visit_start_date", PyVal.date 5), ("visit_end_date", PyVal.date 6)]
    [[("person_id", PyVal.int 1), ("visit_occurrence_id", PyVal.int 200),
      ("visit_start_date", PyVal.date 0), ("visit_end_date", PyVal.date 30)],
     [("person_id", PyVal.int 1), ("visit_occurrence_id", PyVal.int 300),
      ("visit_start_date", PyVal.date 4), ("visit_end_date", PyVal.date 10)]]
    [[("person_id", PyVal.int 1), ("visit_occurrence_id", PyVal.int 200),
      ("visit_start_date", PyVal.date 0), ("visit_end_date", PyVal.date 30)],
     [("person_id", PyVal.int 1), ("visit_occurrence_id", PyVal.int 300),
      ("visit_start_date", PyVal.date 4), ("visit_end_date", PyVal.date 10)]]
    [("person_id", PyVal.int 1), ("visit_occurrence_id", PyVal.int 300),
     ("visit_start_date", PyVal.date 4), ("visit_end_date", PyVal.date 10)]
    rfl rfl rfl rfl rfl

end CCDA
